import Mathlib

/-!
# KnexProvider: a knex-backed settings provider for discord.js-commando

A shallow embedding of `src/index.js`.  The provider's asynchronous methods are
embedded as sequential state-passing functions (every `await` is completed
before the next statement runs); a method that can throw returns an `Except`
next to the state it leaves behind.

Three layers:

* JavaScript values and plain objects (own properties in insertion order, with
  the members every plain object inherits from `Object.prototype`);
* the knex collaborator: one table with a string primary key `guild`, string
  columns added on demand, and the CRUD calls the provider issues;
* the provider itself and the host (client, guild cache, command registry).

What the embedding fixes about the collaborators:

* a value written through `set` is what a string column can hold, a text or NULL;
  the number `0` that `set`, `remove` and `clear` use for the global scope is
  stored as the text `0`, the form `all` compares the column with;
* the primary key is unique; the three columns `init` creates are NOT NULL and the
  two timestamps carry a symbolic default; a new column is refused when its name
  is empty, differs from an existing one only in letter case, or breaks the
  backend's identifier rules, which are a parameter of the database; a text is
  stored as given;
* objects the source mutates in place (guild, command, group) are passed in and
  handed back; a guild is written back to its cache entry.

The listeners `commandPrefixChange`, `commandStatusChange` and `groupStatusChange`
only forward to `set`, and `destroy` and `updateOtherShards` touch neither the
store nor the host objects; they are not embedded.
-/

namespace KnexProvider

/-! ## JavaScript values and objects -/

/-- JavaScript values that reach the provider: `undefined`, `null`, strings, and
the built-in members a plain object inherits (`native name`). -/
inductive Val where
  | undefined
  | null
  | str (s : String)
  | native (name : String)
  deriving DecidableEq, Repr

/-- A database cell of a string column: SQL NULL (`none`) or a text. -/
abbrev Cell := Option String

/-- The JavaScript value knex hands back for a cell. -/
def cellToVal : Cell → Val
  | none => .null
  | some s => .str s

/-- Own property names of `Object.prototype`, visible through every plain object. -/
def objectPrototype : List String :=
  ["constructor", "__defineGetter__", "__defineSetter__", "hasOwnProperty",
   "__lookupGetter__", "__lookupSetter__", "isPrototypeOf", "propertyIsEnumerable",
   "toString", "valueOf", "__proto__", "toLocaleString"]

/-- Create or overwrite the own property `key` (position of an existing key is kept). -/
def setOwn {α : Type} : List (String × α) → String → α → List (String × α)
  | [], key, value => [(key, value)]
  | (k, v) :: rest, key, value =>
    if k = key then (k, value) :: rest else (k, v) :: setOwn rest key value

/-- The assignment `obj[key] = value` on a plain object holding primitives: it
creates or overwrites an own property, except for `__proto__`, whose inherited
setter leaves the own properties alone. -/
def objAssign {α : Type} (obj : List (String × α)) (key : String) (value : α) :
    List (String × α) :=
  if key = "__proto__" then obj else setOwn obj key value

/-- The statement `delete obj.key`. -/
def objDelete {α : Type} (obj : List (String × α)) (key : String) : List (String × α) :=
  obj.filter (fun e => e.1 ≠ key)

/-- The read `obj[key]` on a plain object: the own property if there is one, else
what `Object.prototype` provides, else `undefined`. -/
def objProp (obj : List (String × Val)) (key : String) : Val :=
  match List.lookup key obj with
  | some v => v
  | none => if key ∈ objectPrototype then .native key else .undefined

/-- `Object.keys(obj)`. -/
def objKeys {α : Type} (obj : List (String × α)) : List String :=
  obj.map Prod.fst

/-- The loose comparison `value == null`. -/
def looseEqNull : Val → Bool
  | .undefined => true
  | .null => true
  | _ => false

/-- The loose comparison `value == "1"`. -/
def looseEqOne : Val → Bool
  | .str s => s = "1"
  | _ => false

/-! ## The knex collaborator -/

/-- Errors a call can throw. -/
inductive Err where
  | typeError
  | noSuchTable
  | tableExists
  | duplicateColumn
  | noSuchColumn
  | emptyUpdate
  | invalidKey
  | notNull
  | duplicateKey
  deriving DecidableEq, Repr

/-- A column of the settings table with its default (`none` is NULL). -/
structure ColumnDef where
  name : String
  dflt : Cell
  deriving DecidableEq, Repr

/-- A stored row: the primary key and the other cells by column name. -/
structure Row where
  guild : String
  cells : String → Cell

/-- The settings table. -/
structure Table where
  columns : List ColumnDef
  rows : List Row

/-- The database behind the knex handle: the settings table if it exists, the log of
add-column statements issued so far, and the identifier rules of the backend (which
names knex and the engine behind it take for a column), which the sources do not fix. -/
structure Knex where
  table : Option Table
  alterLog : List String
  legal : String → Bool

/-- A name with its ASCII letters in lower case: the engine compares column names
without regard to letter case. -/
def foldCase (s : String) : List Char :=
  s.data.map Char.toLower

/-- The columns `init` creates; they are NOT NULL (the primary key, and the
timestamps made by `timestamps(false, true)`). -/
def fixedColumns : List String :=
  ["guild", "created_at", "updated_at"]

/-- Column names of a table, in schema order. -/
def Table.names (t : Table) : List String :=
  t.columns.map ColumnDef.name

/-- The cell of a row at a column. -/
def Row.cell (r : Row) (column : String) : Cell :=
  if column = "guild" then some r.guild else r.cells column

/-- Store one column of a row. -/
def Row.put (r : Row) (column : String) (value : Cell) : Row :=
  if column = "guild" then { r with guild := value.getD r.guild }
  else { r with cells := fun c => if c = column then value else r.cells c }

/-- Store every column of an update object into a row. -/
def Row.write (r : Row) (data : List (String × Cell)) : Row :=
  data.foldl (fun acc e => acc.put e.1 e.2) r

/-- The row object knex returns: one own property per schema column. -/
def Table.toObject (t : Table) (r : Row) : List (String × Val) :=
  t.columns.map (fun c => (c.name, cellToVal (r.cell c.name)))

/-- The default cell of a column of the schema. -/
def Table.defaultOf (t : Table) (column : String) : Cell :=
  match t.columns.find? (fun c => c.name = column) with
  | some c => c.dflt
  | none => none

/-- Does an insert/update object try to store NULL into a NOT NULL column. -/
def nullsKey (data : List (String × Cell)) : Bool :=
  data.any (fun e => e.1 ∈ fixedColumns ∧ e.2 = none)

/-- The call `knex.schema.hasTable(tableName)`. -/
def Knex.hasTable (k : Knex) : Bool :=
  k.table.isSome

/-- The call `knex.schema.createTable` of `init`: primary key `guild` and the two
timestamps, which default to the current time (kept symbolic). -/
def Knex.createTable (k : Knex) : Except Err Knex :=
  match k.table with
  | some _ => .error .tableExists
  | none =>
    let t : Table :=
      { columns := [⟨"guild", none⟩, ⟨"created_at", some "CURRENT_TIMESTAMP"⟩,
                    ⟨"updated_at", some "CURRENT_TIMESTAMP"⟩],
        rows := [] }
    .ok { k with table := some t }

/-- The call `knex(tableName).columnInfo()`: the column names. -/
def Knex.columnInfo (k : Knex) : Except Err (List String) :=
  match k.table with
  | none => .error .noSuchTable
  | some t => .ok t.names

/-- The call `knex.schema.table(tableName, table => table.string(key))`. The empty
name is refused before any statement is issued. Otherwise the statement is issued
(logged), and the engine refuses it when a column of that name, compared without
regard to letter case, exists, or when the name breaks its identifier rules. -/
def Knex.addColumn (k : Knex) (key : String) : Except Err Unit × Knex :=
  if key = "" then (.error .invalidKey, k)
  else
    let k1 : Knex := { k with alterLog := k.alterLog ++ [key] }
    match k.table with
    | none => (.error .noSuchTable, k1)
    | some t =>
      if foldCase key ∈ t.names.map foldCase then (.error .duplicateColumn, k1)
      else if k.legal key = false then (.error .invalidKey, k1)
      else
        let t1 : Table :=
          { columns := t.columns ++ [⟨key, none⟩],
            rows := t.rows.map (fun r => r.put key none) }
        (.ok (), { k1 with table := some t1 })

/-- The query `knex(tableName)`: every row. -/
def Knex.selectAll (k : Knex) : Except Err (List (List (String × Val))) :=
  match k.table with
  | none => .error .noSuchTable
  | some t => .ok (t.rows.map t.toObject)

/-- The query `knex(tableName).where(guild)`. -/
def Knex.selectWhere (k : Knex) (guild : String) : Except Err (List (List (String × Val))) :=
  match k.table with
  | none => .error .noSuchTable
  | some t => .ok ((t.rows.filter (fun r => r.guild = guild)).map t.toObject)

/-- The query `knex(tableName).where(guild).count()`. -/
def Knex.count (k : Knex) (guild : String) : Except Err Nat :=
  match k.table with
  | none => .error .noSuchTable
  | some t => .ok (t.rows.filter (fun r => r.guild = guild)).length

/-- The query `knex(tableName).where(guild).update(data)`; a NULL for a NOT NULL
column is refused when a row is hit. -/
def Knex.update (k : Knex) (guild : String) (data : List (String × Cell)) : Except Err Knex :=
  match k.table with
  | none => .error .noSuchTable
  | some t =>
    if data = [] then .error .emptyUpdate
    else if ¬ data.all (fun e => e.1 ∈ t.names) then .error .noSuchColumn
    else if nullsKey data ∧ t.rows.any (fun r => r.guild = guild) then .error .notNull
    else
      let rows := t.rows.map (fun r => if r.guild = guild then r.write data else r)
      if (rows.map Row.guild).Nodup then .ok { k with table := some { t with rows := rows } }
      else .error .duplicateKey

/-- The query `knex(tableName).insert(data)`: columns left out take their default. -/
def Knex.insert (k : Knex) (data : List (String × Cell)) : Except Err Knex :=
  match k.table with
  | none => .error .noSuchTable
  | some t =>
    if ¬ data.all (fun e => e.1 ∈ t.names) then .error .noSuchColumn
    else if nullsKey data then .error .notNull
    else
      match List.lookup "guild" data with
      | some (some g) =>
        if g ∈ t.rows.map Row.guild then .error .duplicateKey
        else
          let row : Row :=
            { guild := g,
              cells := fun c =>
                match List.lookup c data with
                | some v => v
                | none => t.defaultOf c }
          .ok { k with table := some { t with rows := t.rows ++ [row] } }
      | _ => .error .notNull

/-- The query `knex(tableName).where(guild).del()`: the number of deleted rows. -/
def Knex.del (k : Knex) (guild : String) : Except Err (Nat × Knex) :=
  match k.table with
  | none => .error .noSuchTable
  | some t =>
    .ok ((t.rows.filter (fun r => r.guild = guild)).length,
         { k with table := some { t with rows := t.rows.filter (fun r => r.guild ≠ guild) } })

/-! ## The host application -/

/-- A registered command: its name and the flag the provider writes. -/
structure Command where
  name : String
  _globalEnabled : Bool
  deriving DecidableEq, Repr

/-- A registered command group: its id and the flag the provider writes. -/
structure CommandGroup where
  id : String
  _globalEnabled : Bool
  deriving DecidableEq, Repr

/-- A guild object of the host; the two flag tables are absent until first written. -/
structure Guild where
  id : String
  _commandPrefix : Val
  _commandsEnabled : Option (List (String × Bool))
  _groupsEnabled : Option (List (String × Bool))
  deriving DecidableEq, Repr

/-- The client: its own command prefix, `guilds.cache` (keyed by guild id),
`registry.commands` and `registry.groups`. -/
structure Client where
  _commandPrefix : Val
  guilds : List Guild
  commands : List Command
  groups : List CommandGroup
  deriving DecidableEq, Repr

/-- The lookup `client.guilds.cache.get(guild)`; a key that is not a string finds nothing. -/
def cacheGet (guilds : List Guild) (guild : Val) : Option Guild :=
  match guild with
  | .str id => guilds.find? (fun g => g.id = id)
  | _ => none

/-- The test `client.guilds.cache.has(guild)`. -/
def cacheHas (guilds : List Guild) (guild : Val) : Bool :=
  (cacheGet guilds guild).isSome

/-- Put a guild object, mutated in place by the source, back at its cache entry. -/
def cachePut : List Guild → Guild → List Guild
  | [], _ => []
  | g :: rest, g1 => if g.id = g1.id then g1 :: rest else g :: cachePut rest g1

/-- Put back the guild a handler worked on, if it had one. -/
def cacheStore (guilds : List Guild) (guild : Option Guild) : List Guild :=
  match guild with
  | some g => cachePut guilds g
  | none => guilds

/-- Own property names of `Promise.prototype`. -/
def promisePrototype : List String :=
  ["constructor", "then", "catch", "finally"]

/-- What a `settings` variable holds: the plain object built by `formatRow`, or the
pending Promise of an async call that was not awaited (with what it settles to). -/
inductive Settings where
  | object (fields : List (String × Val))
  | promise (settled : Except Err Val)

/-- The read `settings[key]`. -/
def Settings.prop : Settings → String → Val
  | .object fields, key => objProp fields key
  | .promise _, key =>
    if key ∈ promisePrototype ++ objectPrototype then .native key else .undefined

/-- A `Map` keyed by JavaScript values, in insertion order. -/
abbrev JsMap (β : Type) := List (Val × β)

/-- The call `map.set(key, value)`. -/
def mapSet {β : Type} : JsMap β → Val → β → JsMap β
  | [], key, value => [(key, value)]
  | (k, v) :: rest, key, value =>
    if k = key then (k, value) :: rest else (k, v) :: mapSet rest key value

/-! ## The provider -/

/-- What `getGuildID` accepts: a guild object of the host or a string. -/
inductive Scope where
  | guild (g : Guild)
  | id (s : String)

/-- Modelled from the spec: `SettingProvider.getGuildID` of discord.js-commando, the
base class, is not in the sources; it resolves a scope (a tenant reference or id,
or the literal `global`) to the id or to `global`. -/
def getGuildID : Scope → String
  | .guild g => g.id
  | .id s => s

end KnexProvider

/-- The provider object: the knex handle, the client and the column cache. -/
structure KnexProvider where
  knex : KnexProvider.Knex
  client : KnexProvider.Client
  columns : List String

namespace KnexProvider

/-- The method `formatRow(result)`; `result` is `none` when the caller passes the
`undefined` it read from an empty result set, and `delete result.guild` throws. -/
def formatRow (result : Option (List (String × Val))) : Except Err (List (String × Val)) :=
  match result with
  | none => .error .typeError
  | some row =>
    let row := objDelete row "guild"
    let row := objDelete row "created_at"
    let row := objDelete row "updated_at"
    .ok (row.foldl
      (fun settings e => objAssign settings e.1 (if looseEqNull e.2 then .undefined else e.2))
      [])

/-- The loop `result.forEach(row => ...)` of `all`. -/
def allRows : List (List (String × Val)) → JsMap (List (String × Val)) →
    Except Err (JsMap (List (String × Val)))
  | [], settings => .ok settings
  | row :: rest, settings =>
    let guild := if objProp row "guild" ≠ .str "0" then objProp row "guild" else .str "global"
    match formatRow (some row) with
    | .error e => .error e
    | .ok formatted => allRows rest (mapSet settings guild formatted)

/-- The method `all()`. -/
def all (self : KnexProvider) : Except Err (JsMap (List (String × Val))) :=
  match self.knex.selectAll with
  | .error e => .error e
  | .ok result => allRows result []

/-- The method `get(guild, key, defVal = null)`; an omitted `defVal` is `undefined`. -/
def get (self : KnexProvider) (guild : Scope) (key : String) (defVal : Val) : Except Err Val :=
  let defVal := if defVal = .undefined then Val.null else defVal
  let guild := getGuildID guild
  match self.knex.selectWhere guild with
  | .error e => .error e
  | .ok result =>
    match formatRow result.head? with
    | .error e => .error e
    | .ok settings =>
      .ok (if objProp settings key ≠ .undefined then objProp settings key else defVal)

/-- The method `insertOrUpdate(guild, key, value)`. -/
def insertOrUpdate (self : KnexProvider) (guild key : String) (value : Cell) :
    Except Err Unit × KnexProvider :=
  let ensured : Except Err Unit × KnexProvider :=
    if key ∈ self.columns then (.ok (), self)
    else
      match self.knex.addColumn key with
      | (.error e, knex) => (.error e, { self with knex := knex })
      | (.ok _, knex) => (.ok (), { self with knex := knex, columns := self.columns ++ [key] })
  match ensured with
  | (.error e, self) => (.error e, self)
  | (.ok _, self) =>
    match self.knex.count guild with
    | .error e => (.error e, self)
    | .ok count =>
      if count > 0 then
        match self.knex.update guild (objAssign [] key value) with
        | .error e => (.error e, self)
        | .ok knex => (.ok (), { self with knex := knex })
      else
        match self.knex.insert (objAssign [("guild", some guild)] key value) with
        | .error e => (.error e, self)
        | .ok knex => (.ok (), { self with knex := knex })

/-- The method `set(guild, key, val)`; the sentinel `0` is stored as the text `0`
that `all` compares the column with. -/
def set (self : KnexProvider) (guild : Scope) (key : String) (val : Cell) :
    Except Err Val × KnexProvider :=
  let guild := getGuildID guild
  match insertOrUpdate self (if guild ≠ "global" then guild else "0") key val with
  | (.error e, self) => (.error e, self)
  | (.ok _, self) => (.ok (cellToVal val), self)

/-- The method `remove(guild, key)`. -/
def remove (self : KnexProvider) (guild : Scope) (key : String) :
    Except Err Val × KnexProvider :=
  let guild := getGuildID guild
  match get self (.id guild) key .undefined with
  | .error e => (.error e, self)
  | .ok val =>
    match insertOrUpdate self (if guild ≠ "global" then guild else "0") key none with
    | (.error e, self) => (.error e, self)
    | (.ok _, self) => (.ok val, self)

/-- The method `clear(guild)`. -/
def clear (self : KnexProvider) (guild : Scope) : Except Err Nat × KnexProvider :=
  let guild := getGuildID guild
  match self.knex.del (if guild ≠ "global" then guild else "0") with
  | .error e => (.error e, self)
  | .ok (n, knex) => (.ok n, { self with knex := knex })

/-- The method `setupGuildCommand(guild, command, settings)`; the guild and the
command, which the source mutates in place, are returned. -/
def setupGuildCommand (guild : Option Guild) (command : Command) (settings : Settings) :
    Option Guild × Command :=
  if settings.prop ("cmd-" ++ command.name) = .undefined then (guild, command)
  else
    match guild with
    | some g =>
      let enabled := g._commandsEnabled.getD []
      let enabled := objAssign enabled command.name
        (looseEqOne (settings.prop ("cmd-" ++ command.name)))
      (some { g with _commandsEnabled := some enabled }, command)
    | none =>
      (none, { command with _globalEnabled := looseEqOne (settings.prop ("cmd-" ++ command.name)) })

/-- The method `setupGuildGroup(guild, group, settings)`. -/
def setupGuildGroup (guild : Option Guild) (group : CommandGroup) (settings : Settings) :
    Option Guild × CommandGroup :=
  if settings.prop ("grp-" ++ group.id) = .undefined then (guild, group)
  else
    match guild with
    | some g =>
      let enabled := g._groupsEnabled.getD []
      let enabled := objAssign enabled group.id
        (looseEqOne (settings.prop ("grp-" ++ group.id)))
      (some { g with _groupsEnabled := some enabled }, group)
    | none =>
      (none, { group with _globalEnabled := looseEqOne (settings.prop ("grp-" ++ group.id)) })

/-- The loop over `registry.commands.values()` in `setupGuild`. -/
def setupCommands (guild : Option Guild) (settings : Settings) :
    List Command → Option Guild × List Command
  | [] => (guild, [])
  | command :: rest =>
    let r := setupGuildCommand guild command settings
    let rs := setupCommands r.1 settings rest
    (rs.1, r.2 :: rs.2)

/-- The loop over `registry.groups.values()` in `setupGuild`. -/
def setupGroups (guild : Option Guild) (settings : Settings) :
    List CommandGroup → Option Guild × List CommandGroup
  | [] => (guild, [])
  | group :: rest =>
    let r := setupGuildGroup guild group settings
    let rs := setupGroups r.1 settings rest
    (rs.1, r.2 :: rs.2)

/-- The method `setupGuild(guild, settings)` on the client. -/
def setupGuild (client : Client) (guild : Val) (settings : Settings) : Except Err Client :=
  match guild with
  | .str _ =>
    let guildObj := cacheGet client.guilds guild
    let loaded : Option Guild × Val :=
      if settings.prop "prefix" ≠ .undefined then
        match guildObj with
        | some g => (some { g with _commandPrefix := settings.prop "prefix" }, client._commandPrefix)
        | none => (none, settings.prop "prefix")
      else (guildObj, client._commandPrefix)
    let cs := setupCommands loaded.1 settings client.commands
    let gs := setupGroups cs.1 settings client.groups
    .ok { _commandPrefix := loaded.2,
          guilds := cacheStore client.guilds gs.1,
          commands := cs.2,
          groups := gs.2 }
  | _ => .error .typeError

/-- The loop `all.forEach((settings, guild) => this.setupGuild(guild, settings))` of `init`. -/
def setupAll : Client → JsMap (List (String × Val)) → Except Err Unit × Client
  | client, [] => (.ok (), client)
  | client, (guild, settings) :: rest =>
    match setupGuild client guild (.object settings) with
    | .error e => (.error e, client)
    | .ok client => setupAll client rest

/-- The constructor followed by `init(client)`. -/
def init (knex : Knex) (client : Client) : Except Err Unit × KnexProvider :=
  let self : KnexProvider := { knex := knex, client := client, columns := [] }
  match (if knex.hasTable then Except.ok knex else knex.createTable) with
  | .error e => (.error e, self)
  | .ok knex =>
    let self : KnexProvider := { self with knex := knex }
    match knex.columnInfo with
    | .error e => (.error e, self)
    | .ok colInfo =>
      let self : KnexProvider := { self with columns := self.columns ++ colInfo }
      match all self with
      | .error e => (.error e, self)
      | .ok settings =>
        match setupAll self.client settings with
        | (.error e, client) => (.error e, { self with client := client })
        | (.ok _, client) => (.ok (), { self with client := client })

/-- The `guildCreate` listener: `this.get(guild)` is not awaited, so `settings` is the
pending Promise, which is truthy. -/
def guildCreate (self : KnexProvider) (guild : Guild) : Except Err Unit × KnexProvider :=
  let settings := Settings.promise (get self (.guild guild) "undefined" .undefined)
  match setupGuild self.client (.str guild.id) settings with
  | .error e => (.error e, self)
  | .ok client => (.ok (), { self with client := client })

/-- The loop of the `commandRegister` listener over the entries of `all()`. -/
def commandRegisterLoop : JsMap (List (String × Val)) → List Guild → Command →
    List Guild × Command
  | [], guilds, command => (guilds, command)
  | (guild, settings) :: rest, guilds, command =>
    if guild ≠ .str "global" ∧ ¬ cacheHas guilds guild then
      commandRegisterLoop rest guilds command
    else
      let r := setupGuildCommand (cacheGet guilds guild) command (.object settings)
      commandRegisterLoop rest (cacheStore guilds r.1) r.2

/-- The `commandRegister` listener; the command object it mutates is returned. -/
def commandRegister (self : KnexProvider) (command : Command) :
    Except Err Command × KnexProvider :=
  match all self with
  | .error e => (.error e, self)
  | .ok settings =>
    let r := commandRegisterLoop settings self.client.guilds command
    (.ok r.2, { self with client := { self.client with guilds := r.1 } })

/-- The loop of the `groupRegister` listener over the entries of `all()`. -/
def groupRegisterLoop : JsMap (List (String × Val)) → List Guild → CommandGroup →
    List Guild × CommandGroup
  | [], guilds, group => (guilds, group)
  | (guild, settings) :: rest, guilds, group =>
    if guild ≠ .str "global" ∧ ¬ cacheHas guilds guild then
      groupRegisterLoop rest guilds group
    else
      let r := setupGuildGroup (cacheGet guilds guild) group (.object settings)
      groupRegisterLoop rest (cacheStore guilds r.1) r.2

/-- The `groupRegister` listener; the group object it mutates is returned. -/
def groupRegister (self : KnexProvider) (group : CommandGroup) :
    Except Err CommandGroup × KnexProvider :=
  match all self with
  | .error e => (.error e, self)
  | .ok settings =>
    let r := groupRegisterLoop settings self.client.guilds group
    (.ok r.2, { self with client := { self.client with guilds := r.1 } })

/-! ## States the provider can be in -/

/-- Equality of results is decidable. -/
instance instDecidableEqExcept {ε α : Type} [DecidableEq ε] [DecidableEq α] :
    DecidableEq (Except ε α)
  | .ok a, .ok b =>
    if h : a = b then isTrue (congrArg Except.ok h)
    else isFalse (fun h1 => h (Except.ok.inj h1))
  | .error a, .error b =>
    if h : a = b then isTrue (congrArg Except.error h)
    else isFalse (fun h1 => h (Except.error.inj h1))
  | .ok _, .error _ => isFalse (fun h => Except.noConfusion h)
  | .error _, .ok _ => isFalse (fun h => Except.noConfusion h)

/-- A table the backend can hold: distinct column names, the primary key column
among them, and distinct primary keys. -/
def Table.Valid (t : Table) : Prop :=
  t.names.Nodup ∧ "guild" ∈ t.names ∧ (t.rows.map Row.guild).Nodup

/-- A database the provider can be started on: no settings table yet, or a valid one. -/
def Knex.Valid (k : Knex) : Prop :=
  match k.table with
  | none => True
  | some t => t.Valid

/-- One step of a running provider: a public write, a listener, or the host
changing its own objects. -/
inductive Step : KnexProvider → KnexProvider → Prop
  | set (self : KnexProvider) (guild : Scope) (key : String) (val : Cell) :
      Step self (set self guild key val).2
  | remove (self : KnexProvider) (guild : Scope) (key : String) :
      Step self (remove self guild key).2
  | clear (self : KnexProvider) (guild : Scope) :
      Step self (clear self guild).2
  | guildCreate (self : KnexProvider) (guild : Guild) :
      Step self (guildCreate self guild).2
  | commandRegister (self : KnexProvider) (command : Command) :
      Step self (commandRegister self command).2
  | groupRegister (self : KnexProvider) (group : CommandGroup) :
      Step self (groupRegister self group).2
  | host (self : KnexProvider) (client : Client) :
      Step self { self with client := client }

/-- States reached after a successful `init` on a valid database. -/
inductive Reachable : KnexProvider → Prop
  | init (knex : Knex) (client : Client) :
      knex.Valid → (init knex client).1 = .ok () → Reachable (init knex client).2
  | step (self next : KnexProvider) : Reachable self → Step self next → Reachable next

/-- Any number of steps. -/
inductive Later : KnexProvider → KnexProvider → Prop
  | refl (self : KnexProvider) : Later self self
  | step (self mid next : KnexProvider) : Later self mid → Step mid next → Later self next

/-- The invariant of reachable states: the table exists and is valid, and the
column cache lists exactly its columns. -/
def Wf (self : KnexProvider) : Prop :=
  ∃ t, self.knex.table = some t ∧ t.Valid ∧ self.columns = t.names

/-- The first row the query `where(guild)` returns holds `value` in column `key`. -/
def Stored (k : Knex) (guild key : String) (value : Cell) : Prop :=
  ∃ t r, k.table = some t ∧ key ∈ t.names ∧
    (t.rows.filter (fun r => r.guild = guild)).head? = some r ∧ r.cell key = value

/-! ## Concrete states used by the evaluations below -/

/-- Identifier rules of a cautious engine: letters, digits, `_` and `-` only. -/
def plainName (s : String) : Bool :=
  s.data.all (fun c => c.isAlphanum || c = '_' || c = '-')

/-- A database in which the settings table does not exist yet. -/
def emptyDb : Knex :=
  { table := none, alterLog := [], legal := plainName }

/-- A guild object the host has loaded. -/
def guildG1 : Guild :=
  { id := "g1", _commandPrefix := .null, _commandsEnabled := none, _groupsEnabled := none }

/-- A registered command, enabled by default. -/
def pingCommand : Command :=
  { name := "ping", _globalEnabled := true }

/-- A host with one loaded guild and one registered command. -/
def hostClient : Client :=
  { _commandPrefix := .null, guilds := [guildG1], commands := [pingCommand], groups := [] }

/-- The provider right after `init` on the empty database. -/
def started : KnexProvider :=
  (init emptyDb hostClient).2

/-- A host that has not loaded any guild. -/
def bareClient : Client :=
  { _commandPrefix := .null, guilds := [], commands := [pingCommand], groups := [] }

/-- The schema after the keys `prefix` and `cmd-ping` have been written once. -/
def sampleColumns : List ColumnDef :=
  [⟨"guild", none⟩, ⟨"created_at", some "CURRENT_TIMESTAMP"⟩,
   ⟨"updated_at", some "CURRENT_TIMESTAMP"⟩, ⟨"prefix", none⟩, ⟨"cmd-ping", none⟩]

/-- The persisted row of guild `5`: command prefix `?`, command `ping` disabled. -/
def rowOfGuild5 : Row :=
  { guild := "5",
    cells := fun c =>
      if c = "prefix" then some "?"
      else if c = "cmd-ping" then some "0"
      else if c = "created_at" ∨ c = "updated_at" then some "CURRENT_TIMESTAMP"
      else none }

/-- A database whose only row belongs to guild `5`. -/
def dbWithGuild5 : Knex :=
  { table := some { columns := sampleColumns, rows := [rowOfGuild5] }, alterLog := [],
    legal := plainName }

/-- The same database without that row. -/
def dbWithoutRows : Knex :=
  { table := some { columns := sampleColumns, rows := [] }, alterLog := [],
    legal := plainName }

/-- A row object whose only dynamic column is NULL. -/
def rowAllNull : List (String × Val) :=
  [("guild", .str "1"), ("created_at", .str "CURRENT_TIMESTAMP"),
   ("updated_at", .str "CURRENT_TIMESTAMP"), ("prefix", .null)]

/-! ## What the command-registered catch-up is measured against -/

/-- The value a tenant's persisted row holds in a column; `none` when the table, the
row or the column is missing, or the cell is NULL. -/
def Knex.persisted (k : Knex) (guild key : String) : Option String :=
  match k.table with
  | none => none
  | some t =>
    if key ∈ t.names then
      match t.rows.find? (fun r => r.guild = guild) with
      | some r => r.cell key
      | none => none
    else none

/-- The primary keys of the persisted rows. -/
def Knex.guildIds (k : Knex) : List String :=
  match k.table with
  | none => []
  | some t => t.rows.map Row.guild

/-- A guild object after the assignment `guild._commandsEnabled[name] = flag`. -/
def Guild.withCommand (g : Guild) (name : String) (flag : Bool) : Guild :=
  { g with _commandsEnabled := some (objAssign (g._commandsEnabled.getD []) name flag) }

/-- A command as the claim wants it: enabled exactly when the stored value is the
text `1`, untouched when there is no stored value. -/
def flaggedCommand (command : Command) (stored : Option String) : Command :=
  match stored with
  | some s => { command with _globalEnabled := decide (s = "1") }
  | none => command

/-- A guild as the claim wants it: the command enabled exactly when the stored value
is the text `1`, untouched when there is no stored value. -/
def flaggedGuild (name : String) (g : Guild) (stored : Option String) : Guild :=
  match stored with
  | some s => g.withCommand name (decide (s = "1"))
  | none => g

/-- The object `formatRow` builds from a row object. -/
def formatted (row : List (String × Val)) : List (String × Val) :=
  (objDelete (objDelete (objDelete row "guild") "created_at") "updated_at").foldl
    (fun settings e => objAssign settings e.1 (if looseEqNull e.2 then .undefined else e.2))
    []

/-- The key under which `all` files a row object. -/
def scopeOf (row : List (String × Val)) : Val :=
  if objProp row "guild" ≠ .str "0" then objProp row "guild" else .str "global"

/-- What `setupGuildCommand` does to a guild object for given settings. -/
def guildAfter (name : String) (settings : List (String × Val)) (g : Guild) : Guild :=
  if objProp settings ("cmd-" ++ name) = .undefined then g
  else g.withCommand name (looseEqOne (objProp settings ("cmd-" ++ name)))

/-- What `setupGuildCommand` does to the command when there is no guild object. -/
def commandAfter (settings : List (String × Val)) (command : Command) : Command :=
  if objProp settings ("cmd-" ++ command.name) = .undefined then command
  else { command with _globalEnabled := looseEqOne (objProp settings ("cmd-" ++ command.name)) }

/-- The provider with the guild cache of its client replaced. -/
def withGuilds (self : KnexProvider) (guilds : List Guild) : KnexProvider :=
  { self with client := { self.client with guilds := guilds } }

/-- The provider after three writes of `cmd-ping`: for the loaded guild `g1`, for the
global scope, and for guild `7`, which the host has not loaded. -/
def sampleRun : KnexProvider :=
  (set (set (set started (.id "g1") "cmd-ping" (some "1")).2
    (.id "global") "cmd-ping" (some "0")).2 (.id "7") "cmd-ping" (some "0")).2

/-! ## Theorems -/

theorem lookup_setOwn_same {α : Type} (obj : List (String × α)) (key : String) (value : α) :
    List.lookup key (setOwn obj key value) = some value := by
  induction obj with
  | nil => simp [setOwn, List.lookup]
  | cons e rest ih =>
    obtain ⟨k, v⟩ := e
    by_cases h : k = key
    · subst h; simp [setOwn, List.lookup]
    · have h2 : (key == k) = false := by simpa using fun h3 => h h3.symm
      simp [setOwn, h, List.lookup, h2, ih]

theorem lookup_setOwn_other {α : Type} (obj : List (String × α)) (key other : String) (value : α)
    (h : other ≠ key) : List.lookup other (setOwn obj key value) = List.lookup other obj := by
  induction obj with
  | nil =>
    have h2 : (other == key) = false := by simpa using h
    simp [setOwn, List.lookup, h2]
  | cons e rest ih =>
    obtain ⟨k, v⟩ := e
    by_cases hk : k = key
    · subst hk
      have h2 : (other == k) = false := by simpa using h
      simp [setOwn, List.lookup, h2]
    · by_cases ho : other = k
      · subst ho; simp [setOwn, hk, List.lookup]
      · have h2 : (other == k) = false := by simpa using ho
        simp [setOwn, hk, List.lookup, h2, ih]

theorem keys_setOwn {α : Type} (obj : List (String × α)) (key other : String) (value : α) :
    other ∈ objKeys (setOwn obj key value) ↔ other = key ∨ other ∈ objKeys obj := by
  induction obj with
  | nil => simp [setOwn, objKeys]
  | cons e rest ih =>
    obtain ⟨k, v⟩ := e
    by_cases hk : k = key
    · subst hk; simp [setOwn, objKeys]
    · simp only [objKeys] at ih
      simp [setOwn, hk, objKeys, ih]
      tauto

theorem mem_setOwn {α : Type} (obj : List (String × α)) (key : String) (value : α)
    (e : String × α) (h : e ∈ setOwn obj key value) : e = (key, value) ∨ e ∈ obj := by
  induction obj with
  | nil => simpa [setOwn] using h
  | cons x rest ih =>
    obtain ⟨k, v⟩ := x
    by_cases hk : k = key
    · subst hk
      simp only [setOwn, if_true, List.mem_cons] at h
      rcases h with h | h
      · exact Or.inl h
      · exact Or.inr (List.mem_cons_of_mem _ h)
    · simp only [setOwn, hk, if_false, List.mem_cons] at h
      rcases h with h | h
      · exact Or.inr (h ▸ List.mem_cons_self _ _)
      · rcases ih h with h2 | h2
        · exact Or.inl h2
        · exact Or.inr (List.mem_cons_of_mem _ h2)

theorem lookup_objAssign_other {α : Type} (obj : List (String × α)) (key other : String)
    (value : α) (h : other ≠ key) :
    List.lookup other (objAssign obj key value) = List.lookup other obj := by
  unfold objAssign
  split
  · rfl
  · exact lookup_setOwn_other obj key other value h

theorem lookup_objAssign_same {α : Type} (obj : List (String × α)) (key : String) (value : α)
    (h : key ≠ "__proto__") : List.lookup key (objAssign obj key value) = some value := by
  simp [objAssign, h, lookup_setOwn_same]

theorem keys_objAssign {α : Type} (obj : List (String × α)) (key other : String) (value : α) :
    other ∈ objKeys (objAssign obj key value) ↔
      (other = key ∧ key ≠ "__proto__") ∨ other ∈ objKeys obj := by
  unfold objAssign
  split
  · rename_i h; simp [h]
  · rename_i h; simp [keys_setOwn, h]

theorem mem_objAssign {α : Type} (obj : List (String × α)) (key : String) (value : α)
    (e : String × α) (h : e ∈ objAssign obj key value) : e = (key, value) ∨ e ∈ obj := by
  unfold objAssign at h
  split at h
  · exact Or.inr h
  · exact mem_setOwn obj key value e h

theorem lookup_none_iff {α : Type} (obj : List (String × α)) (key : String) :
    List.lookup key obj = none ↔ key ∉ objKeys obj := by
  induction obj with
  | nil => simp [objKeys]
  | cons e rest ih =>
    obtain ⟨k, v⟩ := e
    by_cases h : key = k
    · subst h; simp [List.lookup, objKeys]
    · have h2 : (key == k) = false := by simpa using h
      simp only [objKeys] at ih
      simp [List.lookup, h2, ih, objKeys, h]

/-- The body of the `for ... of Object.entries(result)` loop of `formatRow`. -/
theorem assignAll_lookup_absent (obj acc : List (String × Val)) (key : String)
    (h : key ∉ objKeys obj) :
    List.lookup key (obj.foldl (fun settings e => objAssign settings e.1 (if looseEqNull e.2 then Val.undefined else e.2)) acc)
      = List.lookup key acc := by
  induction obj generalizing acc with
  | nil => rfl
  | cons e rest ih =>
    simp only [objKeys, List.map_cons, List.mem_cons, not_or] at h
    simp only [List.foldl_cons]
    rw [ih _ (by simpa [objKeys] using h.2)]
    exact lookup_objAssign_other acc e.1 key (if looseEqNull e.2 then Val.undefined else e.2) h.1

theorem assignAll_lookup_keep (obj acc : List (String × Val)) (key : String)
    (w : Val) (hacc : List.lookup key acc = some w)
    (hall : ∀ v, (key, v) ∈ obj → (if looseEqNull v then Val.undefined else v) = w) :
    List.lookup key (obj.foldl (fun settings e => objAssign settings e.1 (if looseEqNull e.2 then Val.undefined else e.2)) acc)
      = some w := by
  induction obj generalizing acc with
  | nil => exact hacc
  | cons e rest ih =>
    simp only [List.foldl_cons]
    apply ih
    · by_cases hk : key = e.1
      · by_cases hp : key = "__proto__"
        · have : e.1 = "__proto__" := hk ▸ hp
          simp [objAssign, this, hacc]
        · have hv : (if looseEqNull e.2 then Val.undefined else e.2) = w := hall e.2 (by rw [hk]; exact List.mem_cons_self _ _)
          rw [← hk, hv]
          exact lookup_objAssign_same acc key w hp
      · rw [lookup_objAssign_other acc e.1 key (if looseEqNull e.2 then Val.undefined else e.2) hk]; exact hacc
    · intro v hv; exact hall v (List.mem_cons_of_mem _ hv)

theorem assignAll_lookup_present (obj acc : List (String × Val)) (key : String)
    (w : Val) (hp : key ≠ "__proto__") (hmem : key ∈ objKeys obj)
    (hall : ∀ v, (key, v) ∈ obj → (if looseEqNull v then Val.undefined else v) = w) :
    List.lookup key (obj.foldl (fun settings e => objAssign settings e.1 (if looseEqNull e.2 then Val.undefined else e.2)) acc)
      = some w := by
  induction obj generalizing acc with
  | nil => simp [objKeys] at hmem
  | cons e rest ih =>
    simp only [List.foldl_cons]
    by_cases hk : key = e.1
    · apply assignAll_lookup_keep
      · have hv : (if looseEqNull e.2 then Val.undefined else e.2) = w := hall e.2 (by rw [hk]; exact List.mem_cons_self _ _)
        rw [← hk, hv]
        exact lookup_objAssign_same acc key w hp
      · intro v hv; exact hall v (List.mem_cons_of_mem _ hv)
    · apply ih
      · simp only [objKeys, List.map_cons, List.mem_cons] at hmem
        rcases hmem with h | h
        · exact absurd h hk
        · exact h
      · intro v hv; exact hall v (List.mem_cons_of_mem _ hv)

theorem assignAll_keys (obj acc : List (String × Val)) (key : String) :
    key ∈ objKeys (obj.foldl (fun settings e => objAssign settings e.1 (if looseEqNull e.2 then Val.undefined else e.2)) acc) ↔
      key ∈ objKeys acc ∨ (key ∈ objKeys obj ∧ key ≠ "__proto__") := by
  induction obj generalizing acc with
  | nil => simp [objKeys]
  | cons e rest ih =>
    simp only [List.foldl_cons]
    rw [ih, keys_objAssign]
    simp only [objKeys, List.map_cons, List.mem_cons]
    constructor
    · rintro ((⟨h1, h2⟩ | h) | ⟨h1, h2⟩)
      · exact Or.inr ⟨Or.inl h1, h1 ▸ h2⟩
      · exact Or.inl h
      · exact Or.inr ⟨Or.inr h1, h2⟩
    · rintro (h | ⟨h1 | h1, h2⟩)
      · exact Or.inl (Or.inr h)
      · exact Or.inl (Or.inl ⟨h1, h1 ▸ h2⟩)
      · exact Or.inr ⟨h1, h2⟩

theorem assignAll_values (P : Val → Prop) (obj acc : List (String × Val))
    (hacc : ∀ e ∈ acc, P e.2) (hobj : ∀ e ∈ obj, P (if looseEqNull e.2 then Val.undefined else e.2)) :
    ∀ e ∈ obj.foldl (fun settings e => objAssign settings e.1 (if looseEqNull e.2 then Val.undefined else e.2)) acc, P e.2 := by
  induction obj generalizing acc with
  | nil => exact hacc
  | cons x rest ih =>
    simp only [List.foldl_cons]
    apply ih
    · intro e he
      rcases mem_objAssign acc x.1 (if looseEqNull x.2 then Val.undefined else x.2) e he with h | h
      · rw [h]; exact hobj x (List.mem_cons_self _ _)
      · exact hacc e h
    · intro e he; exact hobj e (List.mem_cons_of_mem _ he)

theorem keys_objDelete {α : Type} (obj : List (String × α)) (key other : String) :
    other ∈ objKeys (objDelete obj key) ↔ other ∈ objKeys obj ∧ other ≠ key := by
  simp only [objKeys, objDelete, List.mem_map, List.mem_filter]
  constructor
  · rintro ⟨e, ⟨h1, h2⟩, h3⟩
    refine ⟨⟨e, h1, h3⟩, ?_⟩
    rw [← h3]; simpa using h2
  · rintro ⟨⟨e, h1, h3⟩, h2⟩
    refine ⟨e, ⟨h1, ?_⟩, h3⟩
    rw [h3]; simpa using h2

theorem mem_objDelete {α : Type} (obj : List (String × α)) (key : String) (e : String × α) :
    e ∈ objDelete obj key ↔ e ∈ obj ∧ e.1 ≠ key := by
  simp [objDelete]

theorem formatRow_some (row : List (String × Val)) :
    formatRow (some row) = .ok
      ((objDelete (objDelete (objDelete row "guild") "created_at") "updated_at").foldl
        (fun settings e => objAssign settings e.1 (if looseEqNull e.2 then .undefined else e.2))
        []) := rfl

theorem formatRow_lookup (row : List (String × Val)) (key : String) (w : Val)
    (hk : key ∉ ["guild", "created_at", "updated_at", "__proto__"])
    (hmem : key ∈ objKeys row)
    (hall : ∀ v, (key, v) ∈ row → (if looseEqNull v then Val.undefined else v) = w) :
    ∃ settings, formatRow (some row) = .ok settings ∧ List.lookup key settings = some w := by
  simp only [List.mem_cons, List.mem_singleton, not_or, List.not_mem_nil, or_false] at hk
  refine ⟨_, formatRow_some row, ?_⟩
  apply assignAll_lookup_present _ _ _ _ hk.2.2.2
  · simp only [keys_objDelete]
    exact ⟨⟨⟨hmem, hk.1⟩, hk.2.1⟩, hk.2.2.1⟩
  · intro v hv
    simp only [mem_objDelete] at hv
    exact hall v hv.1.1.1

/-- C10 (amended): for every row object, `formatRow` returns a flat map whose keys
are exactly the row's columns other than `guild`, `created_at`, `updated_at` (and an
own `__proto__`); a column whose value is null or undefined stays a key, bound to
`undefined`, so that reading it gives `undefined`; and no key is bound to null. -/
theorem formatRow_strips_metadata_binds_null_to_undefined (row : List (String × Val)) :
    ∃ settings, formatRow (some row) = .ok settings ∧
      (∀ key, key ∈ objKeys settings ↔
        key ∈ objKeys row ∧ key ∉ ["guild", "created_at", "updated_at", "__proto__"]) ∧
      (∀ key, key ∈ objKeys settings → (∀ v, (key, v) ∈ row → looseEqNull v = true) →
        List.lookup key settings = some .undefined ∧ objProp settings key = .undefined) ∧
      (∀ e ∈ settings, e.2 ≠ .null) := by
  refine ⟨_, formatRow_some row, ?_, ?_, ?_⟩
  · intro key
    rw [assignAll_keys]
    simp only [keys_objDelete]
    simp only [objKeys, List.map_nil, List.not_mem_nil, false_or,
      List.mem_cons, List.mem_singleton, not_or, or_false]
    tauto
  · intro key hkey hnull
    rw [assignAll_keys] at hkey
    simp only [objKeys, List.map_nil, List.not_mem_nil, false_or] at hkey
    have hl : List.lookup key
        ((objDelete (objDelete (objDelete row "guild") "created_at") "updated_at").foldl
          (fun settings e =>
            objAssign settings e.1 (if looseEqNull e.2 then .undefined else e.2)) [])
        = some Val.undefined := by
      apply assignAll_lookup_present _ _ _ _ hkey.2 hkey.1
      intro v hv
      simp only [mem_objDelete] at hv
      simp [hnull v hv.1.1.1]
    exact ⟨hl, by simp [objProp, hl]⟩
  · apply assignAll_values (fun v => v ≠ Val.null)
    · intro e he; simp at he
    · intro e _
      cases h : e.2 <;> simp [looseEqNull]

/-- C10 (counterexample): for a row whose only dynamic column is null, the result is
not the empty map: it keeps the key `prefix`, bound to `undefined`. -/
theorem formatRow_all_null_has_keys :
    formatRow (some rowAllNull) = .ok [("prefix", .undefined)] ∧
    objKeys [("prefix", Val.undefined)] ≠ [] := by
  constructor
  · rfl
  · decide

theorem put_guild (r : Row) (key : String) (hk : key ≠ "guild") (v : Cell) :
    (r.put key v).guild = r.guild := by
  simp [Row.put, hk]

theorem put_none_guild (r : Row) (key : String) : (r.put key none).guild = r.guild := by
  unfold Row.put
  split <;> simp

theorem put_cell (r : Row) (key : String) (hk : key ≠ "guild") (v : Cell) :
    (r.put key v).cell key = v := by
  simp [Row.put, Row.cell, hk]

theorem not_mem_of_foldCase {key : String} {names : List String}
    (h : foldCase key ∉ names.map foldCase) : key ∉ names :=
  fun hm => h (List.mem_map_of_mem _ hm)

theorem addColumn_valid (k : Knex) (t : Table) (key : String) (ht : k.table = some t)
    (hv : t.Valid) (hne : key ≠ "") (hl : k.legal key = true)
    (hk : foldCase key ∉ t.names.map foldCase) :
    ∃ t1, k.addColumn key =
        (.ok (), { table := some t1, alterLog := k.alterLog ++ [key], legal := k.legal }) ∧
      t1.names = t.names ++ [key] ∧ t1.Valid := by
  have hk1 : key ∉ t.names := not_mem_of_foldCase hk
  refine ⟨{ columns := t.columns ++ [⟨key, none⟩],
            rows := t.rows.map (fun r => r.put key none) }, ?_, ?_, ?_⟩
  · simp [Knex.addColumn, ht, hk, hne, hl]
  · simp [Table.names]
  · obtain ⟨h1, h2, h3⟩ := hv
    refine ⟨?_, ?_, ?_⟩
    · simp only [Table.names, List.map_append, List.map_cons, List.map_nil]
      refine List.Nodup.append h1 (List.nodup_singleton _) ?_
      intro x hx hx2
      rw [List.mem_singleton] at hx2
      subst hx2
      exact hk1 hx
    · simp only [Table.names, List.map_append, List.mem_append]
      exact Or.inl h2
    · simp only [List.map_map]
      have : (Row.guild ∘ fun r => r.put key none) = Row.guild := by
        funext r; exact put_none_guild r key
      rw [this]; exact h3

/-- A refused add-column leaves the table as it is; the statement may have been logged. -/
theorem addColumn_refused (k : Knex) (key : String) (e : Err) (k1 : Knex)
    (h : k.addColumn key = (.error e, k1)) :
    k1.table = k.table ∧ k1.legal = k.legal ∧
      (k1.alterLog = k.alterLog ∨ k1.alterLog = k.alterLog ++ [key]) := by
  unfold Knex.addColumn at h
  split at h
  · cases h; exact ⟨rfl, rfl, Or.inl rfl⟩
  · simp only at h
    split at h
    · cases h; exact ⟨rfl, rfl, Or.inr rfl⟩
    · split at h
      · cases h; exact ⟨rfl, rfl, Or.inr rfl⟩
      · split at h
        · cases h; exact ⟨rfl, rfl, Or.inr rfl⟩
        · cases h

/-- An accepted add-column: the name was new, non-empty and legal. -/
theorem addColumn_accepted (k : Knex) (key : String) (k1 : Knex)
    (h : k.addColumn key = (.ok (), k1)) :
    ∃ t, k.table = some t ∧ key ≠ "" ∧ k.legal key = true ∧
      foldCase key ∉ t.names.map foldCase := by
  unfold Knex.addColumn at h
  split at h
  · cases h
  · rename_i hne
    simp only at h
    split at h
    · cases h
    · rename_i t ht
      split at h
      · cases h
      · rename_i hf
        split at h
        · cases h
        · rename_i hl
          exact ⟨t, ht, hne, by simpa using hl, hf⟩

theorem update_valid (k k1 : Knex) (t : Table) (guild : String) (data : List (String × Cell))
    (ht : k.table = some t) (hv : t.Valid) (h : k.update guild data = .ok k1) :
    ∃ t1, k1.table = some t1 ∧ t1.names = t.names ∧ t1.Valid ∧
      k1.alterLog = k.alterLog ∧ k1.legal = k.legal := by
  unfold Knex.update at h
  rw [ht] at h
  simp only at h
  split at h
  · cases h
  · split at h
    · cases h
    · split at h
      · cases h
      · split at h
        · rename_i hnd
          cases h
          exact ⟨_, rfl, rfl, ⟨hv.1, hv.2.1, hnd⟩, rfl, rfl⟩
        · cases h

theorem insert_valid (k k1 : Knex) (t : Table) (data : List (String × Cell))
    (ht : k.table = some t) (hv : t.Valid) (h : k.insert data = .ok k1) :
    ∃ t1, k1.table = some t1 ∧ t1.names = t.names ∧ t1.Valid ∧
      k1.alterLog = k.alterLog ∧ k1.legal = k.legal := by
  unfold Knex.insert at h
  rw [ht] at h
  simp only at h
  split at h
  · cases h
  · split at h
    · cases h
    · split at h
      · split at h
        · cases h
        · rename_i hg
          cases h
          refine ⟨_, rfl, rfl, ⟨hv.1, hv.2.1, ?_⟩, rfl, rfl⟩
          simp only [List.map_append, List.map_cons, List.map_nil]
          exact List.Nodup.append hv.2.2 (List.nodup_singleton _) (by simpa using hg)
      · cases h

theorem del_valid (k k1 : Knex) (t : Table) (guild : String) (n : Nat)
    (ht : k.table = some t) (hv : t.Valid) (h : k.del guild = .ok (n, k1)) :
    ∃ t1, k1.table = some t1 ∧ t1.names = t.names ∧ t1.Valid ∧
      k1.alterLog = k.alterLog ∧ k1.legal = k.legal := by
  unfold Knex.del at h
  rw [ht] at h
  simp only [Except.ok.injEq, Prod.mk.injEq] at h
  obtain ⟨_, h⟩ := h
  subst h
  refine ⟨_, rfl, rfl, ⟨hv.1, hv.2.1, ?_⟩, rfl, rfl⟩
  exact List.Nodup.sublist (List.Sublist.map _ (List.filter_sublist _)) hv.2.2

theorem insertOrUpdate_fresh (self : KnexProvider) (guild key : String) (value : Cell)
    (k1 : Knex) (hk : key ∉ self.columns) (hadd : self.knex.addColumn key = (.ok (), k1)) :
    insertOrUpdate self guild key value =
      insertOrUpdate { self with knex := k1, columns := self.columns ++ [key] } guild key value := by
  simp [insertOrUpdate, hk, hadd]

theorem insertOrUpdate_known_wf (self : KnexProvider) (guild key : String) (value : Cell)
    (hwf : Wf self) (hk : key ∈ self.columns) :
    Wf (insertOrUpdate self guild key value).2 ∧
    (insertOrUpdate self guild key value).2.client = self.client ∧
    (insertOrUpdate self guild key value).2.columns = self.columns ∧
    (insertOrUpdate self guild key value).2.knex.alterLog = self.knex.alterLog := by
  obtain ⟨t, ht, hv, hc⟩ := hwf
  have hcount : self.knex.count guild =
      .ok (t.rows.filter (fun r => r.guild = guild)).length := by
    simp [Knex.count, ht]
  unfold insertOrUpdate
  simp only [hk, if_true, hcount]
  split
  · cases hu : self.knex.update guild (objAssign [] key value) with
    | error e => exact ⟨⟨t, ht, hv, hc⟩, rfl, rfl, rfl⟩
    | ok k1 =>
      obtain ⟨t1, h1, h2, h3, h4, _⟩ := update_valid _ _ t _ _ ht hv hu
      exact ⟨⟨t1, h1, h3, by rw [h2]; exact hc⟩, rfl, rfl, h4⟩
  · cases hu : self.knex.insert (objAssign [("guild", some guild)] key value) with
    | error e => exact ⟨⟨t, ht, hv, hc⟩, rfl, rfl, rfl⟩
    | ok k1 =>
      obtain ⟨t1, h1, h2, h3, h4, _⟩ := insert_valid _ _ t _ ht hv hu
      exact ⟨⟨t1, h1, h3, by rw [h2]; exact hc⟩, rfl, rfl, h4⟩

theorem insertOrUpdate_refused (self : KnexProvider) (guild key : String) (value : Cell)
    (e : Err) (k1 : Knex) (hk : key ∉ self.columns)
    (hadd : self.knex.addColumn key = (.error e, k1)) :
    insertOrUpdate self guild key value = (.error e, { self with knex := k1 }) := by
  simp [insertOrUpdate, hk, hadd]

theorem insertOrUpdate_wf (self : KnexProvider) (guild key : String) (value : Cell)
    (hwf : Wf self) :
    Wf (insertOrUpdate self guild key value).2 ∧
    (insertOrUpdate self guild key value).2.client = self.client ∧
    (key ∈ self.columns →
      (insertOrUpdate self guild key value).2.columns = self.columns ∧
      (insertOrUpdate self guild key value).2.knex.alterLog = self.knex.alterLog) ∧
    (key ∉ self.columns → key ≠ "" → self.knex.legal key = true →
      foldCase key ∉ self.columns.map foldCase →
      (insertOrUpdate self guild key value).2.columns = self.columns ++ [key] ∧
      (insertOrUpdate self guild key value).2.knex.alterLog = self.knex.alterLog ++ [key]) ∧
    self.columns <+: (insertOrUpdate self guild key value).2.columns ∧
    self.knex.alterLog <+: (insertOrUpdate self guild key value).2.knex.alterLog := by
  by_cases hk : key ∈ self.columns
  · obtain ⟨h1, h2, h3, h4⟩ := insertOrUpdate_known_wf self guild key value hwf hk
    refine ⟨h1, h2, fun _ => ⟨h3, h4⟩, fun h => absurd hk h, ?_, ?_⟩
    · rw [h3]
    · rw [h4]
  · obtain ⟨t, ht, hv, hc⟩ := hwf
    cases hadd : self.knex.addColumn key with
    | mk r k1 =>
      cases r with
      | error e =>
        obtain ⟨h1, _, h3⟩ := addColumn_refused self.knex key e k1 hadd
        rw [insertOrUpdate_refused self guild key value e k1 hk hadd]
        refine ⟨⟨t, by rw [h1]; exact ht, hv, hc⟩, rfl, fun h => absurd h hk, ?_,
          List.prefix_refl _, ?_⟩
        · intro _ hne hl hf
          obtain ⟨t1, hadd1, _, _⟩ := addColumn_valid self.knex t key ht hv hne hl (hc ▸ hf)
          rw [hadd1] at hadd
          cases hadd
        · rcases h3 with h3 | h3
          · simp only [h3]; exact List.prefix_refl _
          · simp only [h3]; exact List.prefix_append _ _
      | ok u =>
        obtain ⟨t0, ht0, hne, hl, hf⟩ := addColumn_accepted self.knex key k1 hadd
        rw [ht] at ht0
        cases ht0
        obtain ⟨t1, hadd1, hn, hv1⟩ := addColumn_valid self.knex t key ht hv hne hl hf
        rw [insertOrUpdate_fresh self guild key value _ hk hadd1]
        have hwf1 : Wf { self with
            knex := { table := some t1, alterLog := self.knex.alterLog ++ [key],
                      legal := self.knex.legal },
            columns := self.columns ++ [key] } :=
          ⟨t1, rfl, hv1, by rw [hn, hc]⟩
        obtain ⟨h1, h2, h3, h4⟩ := insertOrUpdate_known_wf _ guild key value hwf1 (by simp)
        refine ⟨h1, h2, fun h => absurd h hk, fun _ _ _ _ => ⟨h3, h4⟩, ?_, ?_⟩
        · rw [h3]; exact List.prefix_append _ _
        · rw [h4]; exact List.prefix_append _ _

theorem filter_map_guild (rows : List Row) (F : Row → Row) (guild : String)
    (hF : ∀ r, (F r).guild = r.guild) :
    (rows.map F).filter (fun r => r.guild = guild) =
      (rows.filter (fun r => r.guild = guild)).map F := by
  induction rows with
  | nil => rfl
  | cons r rest ih =>
    simp only [List.map_cons, List.filter_cons, hF r]
    split
    · simp [ih]
    · exact ih

theorem insertOrUpdate_known_stores (self : KnexProvider) (guild key : String) (value : Cell)
    (hwf : Wf self) (hk : key ∈ self.columns) (hfix : key ∉ fixedColumns)
    (hp : key ≠ "__proto__") :
    (insertOrUpdate self guild key value).1 = .ok () ∧
    Stored (insertOrUpdate self guild key value).2.knex guild key value := by
  obtain ⟨t, ht, hv, hc⟩ := hwf
  have hg : key ≠ "guild" := fun h => hfix (by rw [h]; decide)
  have hnk1 : nullsKey [(key, value)] = false := by
    simp [nullsKey, hfix]
  have hnk2 : nullsKey [("guild", some guild), (key, value)] = false := by
    simp [nullsKey, hfix]
  have hkt : key ∈ t.names := hc ▸ hk
  have hcount : self.knex.count guild =
      .ok (t.rows.filter (fun r => r.guild = guild)).length := by
    simp [Knex.count, ht]
  unfold insertOrUpdate
  simp only [hk, if_true, hcount]
  split
  · rename_i hpos
    have hmap : ∀ r : Row, (if r.guild = guild then r.write [(key, value)] else r).guild = r.guild := by
      intro r
      split
      · simp [Row.write, put_guild r key hg]
      · rfl
    have hnd : ((t.rows.map (fun r => if r.guild = guild then r.write [(key, value)] else r)).map
        Row.guild).Nodup := by
      rw [List.map_map]
      have : (Row.guild ∘ fun r => if r.guild = guild then r.write [(key, value)] else r)
          = Row.guild := by
        funext r; exact hmap r
      rw [this]; exact hv.2.2
    have hu : self.knex.update guild (objAssign [] key value) = .ok
        ⟨some ⟨t.columns,
          t.rows.map (fun r => if r.guild = guild then r.write [(key, value)] else r)⟩,
         self.knex.alterLog, self.knex.legal⟩ := by
      have hnd1 := hnd
      rw [List.map_map] at hnd1
      have hassign : objAssign ([] : List (String × Cell)) key value = [(key, value)] := by
        simp [objAssign, hp, setOwn]
      rw [hassign]
      simp [Knex.update, ht, hnk1, hkt, hnd1]
    rw [hu]
    refine ⟨rfl, ?_⟩
    cases hf : t.rows.filter (fun r => r.guild = guild) with
    | nil => simp [hf] at hpos
    | cons r0 rest =>
      refine ⟨_, (if r0.guild = guild then r0.write [(key, value)] else r0), rfl, hkt, ?_, ?_⟩
      · simp only
        rw [filter_map_guild _ _ _ hmap, hf]
        rfl
      · have hr0 : r0.guild = guild := by
          have : r0 ∈ t.rows.filter (fun r => r.guild = guild) := by rw [hf]; exact List.mem_cons_self _ _
          simpa using (List.mem_filter.mp this).2
        simp [hr0, Row.write, put_cell r0 key hg]
  · rename_i hpos
    have hnone : guild ∉ t.rows.map Row.guild := by
      intro hmem
      apply hpos
      obtain ⟨r, hr, hrg⟩ := List.mem_map.mp hmem
      exact List.length_pos_of_mem (List.mem_filter.mpr ⟨hr, by simpa using hrg⟩)
    have hgk : ("guild" == key) = false := by simpa using fun h => hg h.symm
    have hkg : (key == "guild") = false := by simpa using hg
    have hu : self.knex.insert (objAssign [("guild", some guild)] key value) = .ok
        ⟨some ⟨t.columns, t.rows ++
            [⟨guild, fun c =>
                 match List.lookup c [("guild", some guild), (key, value)] with
                 | some v => v
                 | none => t.defaultOf c⟩]⟩,
         self.knex.alterLog, self.knex.legal⟩ := by
      have hne : ¬ ("guild" = key) := fun h => hg h.symm
      have hassign : objAssign [("guild", some guild)] key value
          = [("guild", some guild), (key, value)] := by
        simp [objAssign, hp, setOwn, hne]
      rw [hassign]
      simp [Knex.insert, ht, hnk2, hkt, hv.2.1, List.lookup, hnone]
      rfl
    rw [hu]
    refine ⟨rfl, _, ⟨guild, fun c =>
                 match List.lookup c [("guild", some guild), (key, value)] with
                 | some v => v
                 | none => t.defaultOf c⟩, rfl, hkt, ?_, ?_⟩
    · simp only [List.filter_append]
      have : t.rows.filter (fun r => r.guild = guild) = [] := by
        cases hf : t.rows.filter (fun r => r.guild = guild) with
        | nil => rfl
        | cons a b => simp [hf] at hpos
      rw [this]
      simp [List.filter]
    · simp [Row.cell, hg, List.lookup, hkg]

theorem insertOrUpdate_stores (self : KnexProvider) (guild key : String) (value : Cell)
    (hwf : Wf self) (hfix : key ∉ fixedColumns) (hp : key ≠ "__proto__")
    (hacc : key ∈ self.columns ∨
      (key ≠ "" ∧ self.knex.legal key = true ∧ foldCase key ∉ self.columns.map foldCase)) :
    (insertOrUpdate self guild key value).1 = .ok () ∧
    Stored (insertOrUpdate self guild key value).2.knex guild key value := by
  by_cases hk : key ∈ self.columns
  · exact insertOrUpdate_known_stores self guild key value hwf hk hfix hp
  · obtain ⟨t, ht, hv, hc⟩ := hwf
    rcases hacc with h | ⟨hne, hl, hf⟩
    · exact absurd h hk
    · obtain ⟨t1, hadd, hn, hv1⟩ := addColumn_valid self.knex t key ht hv hne hl (hc ▸ hf)
      rw [insertOrUpdate_fresh self guild key value _ hk hadd]
      have hwf1 : Wf { self with
          knex := { table := some t1, alterLog := self.knex.alterLog ++ [key],
                    legal := self.knex.legal },
          columns := self.columns ++ [key] } :=
        ⟨t1, rfl, hv1, by rw [hn, hc]⟩
      exact insertOrUpdate_known_stores _ guild key value hwf1 (by simp) hfix hp

theorem keys_toObject (t : Table) (r : Row) : objKeys (t.toObject r) = t.names := by
  simp [objKeys, Table.toObject, Table.names, Function.comp_def]

theorem mem_toObject (t : Table) (r : Row) (key : String) (v : Val)
    (h : (key, v) ∈ t.toObject r) : v = cellToVal (r.cell key) := by
  simp only [Table.toObject, List.mem_map, Prod.mk.injEq] at h
  obtain ⟨c, _, h1, h2⟩ := h
  rw [← h2, h1]

theorem get_of_stored (self : KnexProvider) (guild : Scope) (key : String) (cell : Cell)
    (d : Val) (hs : Stored self.knex (getGuildID guild) key cell)
    (hk : key ∉ ["guild", "created_at", "updated_at", "__proto__"]) :
    get self guild key d = .ok
      (match cell with
       | some s => .str s
       | none => if d = .undefined then .null else d) := by
  obtain ⟨t, r, ht, hkt, hhead, hcell⟩ := hs
  have hsel : self.knex.selectWhere (getGuildID guild) =
      .ok ((t.rows.filter (fun r => r.guild = getGuildID guild)).map t.toObject) := by
    simp [Knex.selectWhere, ht]
  obtain ⟨settings, hfmt, hlook⟩ := formatRow_lookup (t.toObject r) key
    (if looseEqNull (cellToVal cell) then Val.undefined else cellToVal cell) hk
    (by rw [keys_toObject]; exact hkt)
    (by intro v hv; rw [mem_toObject t r key v hv, hcell])
  unfold get
  simp only [hsel, List.head?_map, hhead, Option.map_some', hfmt]
  cases cell with
  | none => simp [objProp, hlook, cellToVal, looseEqNull]
  | some s => simp [objProp, hlook, cellToVal, looseEqNull]

theorem set_eq (self : KnexProvider) (guild : Scope) (key : String) (val : Cell) :
    (set self guild key val).2 =
      (insertOrUpdate self (if getGuildID guild ≠ "global" then getGuildID guild else "0")
        key val).2 ∧
    ((insertOrUpdate self (if getGuildID guild ≠ "global" then getGuildID guild else "0")
        key val).1 = .ok () → (set self guild key val).1 = .ok (cellToVal val)) := by
  unfold set
  simp only
  split
  · rename_i e s h
    rw [h]; exact ⟨rfl, fun h1 => by cases h1⟩
  · rename_i u s h
    rw [h]; exact ⟨rfl, fun _ => rfl⟩

theorem remove_state (self : KnexProvider) (guild : Scope) (key : String) :
    (remove self guild key).2 = self ∨
    (remove self guild key).2 =
      (insertOrUpdate self (if getGuildID guild ≠ "global" then getGuildID guild else "0")
        key none).2 := by
  unfold remove
  simp only
  split
  · exact Or.inl rfl
  · split
    · rename_i e s h
      rw [h]; exact Or.inr rfl
    · rename_i u s h
      rw [h]; exact Or.inr rfl

theorem clear_wf (self : KnexProvider) (guild : Scope) (hwf : Wf self) :
    Wf (clear self guild).2 ∧ (clear self guild).2.columns = self.columns ∧
    (clear self guild).2.knex.alterLog = self.knex.alterLog := by
  obtain ⟨t, ht, hv, hc⟩ := hwf
  unfold clear
  simp only
  split
  · exact ⟨⟨t, ht, hv, hc⟩, rfl, rfl⟩
  · rename_i n k1 h
    obtain ⟨t1, h1, h2, h3, h4, _⟩ := del_valid _ _ t _ _ ht hv h
    exact ⟨⟨t1, h1, h3, by rw [h2]; exact hc⟩, rfl, h4⟩

theorem guildCreate_store (self : KnexProvider) (guild : Guild) :
    (guildCreate self guild).2.knex = self.knex ∧
    (guildCreate self guild).2.columns = self.columns := by
  unfold guildCreate
  simp only
  split <;> exact ⟨rfl, rfl⟩

theorem commandRegister_store (self : KnexProvider) (command : Command) :
    (commandRegister self command).2.knex = self.knex ∧
    (commandRegister self command).2.columns = self.columns := by
  unfold commandRegister
  split <;> exact ⟨rfl, rfl⟩

theorem groupRegister_store (self : KnexProvider) (group : CommandGroup) :
    (groupRegister self group).2.knex = self.knex ∧
    (groupRegister self group).2.columns = self.columns := by
  unfold groupRegister
  split <;> exact ⟨rfl, rfl⟩

/-- What one step does to the column cache and to the log of add-column statements. -/
theorem step_wf (self next : KnexProvider) (hwf : Wf self) (h : Step self next) :
    Wf next ∧ self.columns <+: next.columns ∧ self.knex.alterLog <+: next.knex.alterLog := by
  have hiou : ∀ g key v, Wf (insertOrUpdate self g key v).2 ∧
      self.columns <+: (insertOrUpdate self g key v).2.columns ∧
      self.knex.alterLog <+: (insertOrUpdate self g key v).2.knex.alterLog := by
    intro g key v
    obtain ⟨h1, _, _, _, h5, h6⟩ := insertOrUpdate_wf self g key v hwf
    exact ⟨h1, h5, h6⟩
  cases h with
  | set guild key val =>
    rw [(set_eq self guild key val).1]
    exact hiou _ _ _
  | remove guild key =>
    rcases remove_state self guild key with h | h
    · rw [h]; exact ⟨hwf, List.prefix_refl _, List.prefix_refl _⟩
    · rw [h]; exact hiou _ _ _
  | clear guild =>
    obtain ⟨h1, h2, h3⟩ := clear_wf self guild hwf
    rw [h2, h3]
    exact ⟨h1, List.prefix_refl _, List.prefix_refl _⟩
  | guildCreate guild =>
    obtain ⟨h1, h2⟩ := guildCreate_store self guild
    obtain ⟨t, ht, hv, hc⟩ := hwf
    rw [h1, h2]
    exact ⟨⟨t, by rw [h1]; exact ht, hv, by rw [h2]; exact hc⟩,
      List.prefix_refl _, List.prefix_refl _⟩
  | commandRegister command =>
    obtain ⟨h1, h2⟩ := commandRegister_store self command
    obtain ⟨t, ht, hv, hc⟩ := hwf
    rw [h1, h2]
    exact ⟨⟨t, by rw [h1]; exact ht, hv, by rw [h2]; exact hc⟩,
      List.prefix_refl _, List.prefix_refl _⟩
  | groupRegister group =>
    obtain ⟨h1, h2⟩ := groupRegister_store self group
    obtain ⟨t, ht, hv, hc⟩ := hwf
    rw [h1, h2]
    exact ⟨⟨t, by rw [h1]; exact ht, hv, by rw [h2]; exact hc⟩,
      List.prefix_refl _, List.prefix_refl _⟩
  | host client =>
    exact ⟨hwf, List.prefix_refl _, List.prefix_refl _⟩

theorem init_wf (knex : Knex) (client : Client) (hv : knex.Valid) :
    Wf (init knex client).2 := by
  unfold init
  cases ht : knex.table with
  | none =>
    simp only [Knex.hasTable, ht, Option.isSome_none, Bool.false_eq_true, if_false,
      Knex.createTable, Knex.columnInfo, List.nil_append]
    split <;> (try split) <;>
      exact ⟨_, rfl, ⟨by decide, by decide, by simp⟩, rfl⟩
  | some t =>
    have hvt : t.Valid := by
      unfold Knex.Valid at hv; rw [ht] at hv; exact hv
    simp only [Knex.hasTable, ht, Option.isSome_some, if_true, Knex.columnInfo, List.nil_append]
    split <;> (try split) <;> exact ⟨t, ht, hvt, rfl⟩

theorem reachable_wf (self : KnexProvider) (h : Reachable self) : Wf self := by
  induction h with
  | init knex client hv _ => exact init_wf knex client hv
  | step self next _ hs ih => exact (step_wf self next ih hs).1

theorem later_columns (self next : KnexProvider) (hwf : Wf self) (h : Later self next) :
    Wf next ∧ self.columns <+: next.columns := by
  induction h with
  | refl => exact ⟨hwf, List.prefix_refl _⟩
  | step mid next _ hs ih =>
    obtain ⟨h1, h2, _⟩ := step_wf mid next ih.1 hs
    exact ⟨h1, List.IsPrefix.trans ih.2 h2⟩

theorem started_reachable : Reachable started :=
  Reachable.init emptyDb hostClient trivial rfl

/-- C1 (amended): on every state reached after init, for every scope that does not
resolve to `global`, every key other than `guild`, `created_at`, `updated_at` and
`__proto__` that is a column already or that the backend takes as a new column name
(not empty, within the engine's identifier rules, and not equal up to letter case to
an existing column), every text value and every default, `set` succeeds and the `get`
that follows it returns the value. -/
theorem get_after_set_returns_value (self : KnexProvider) (h : Reachable self)
    (guild : Scope) (key value : String) (d : Val)
    (hg : getGuildID guild ≠ "global")
    (hk : key ∉ ["guild", "created_at", "updated_at", "__proto__"])
    (hacc : key ∈ self.columns ∨
      (key ≠ "" ∧ self.knex.legal key = true ∧ foldCase key ∉ self.columns.map foldCase)) :
    (set self guild key (some value)).1 = .ok (.str value) ∧
    get (set self guild key (some value)).2 guild key d = .ok (.str value) := by
  have hwf := reachable_wf self h
  have hk1 := hk
  simp only [List.mem_cons, List.mem_singleton, not_or, List.not_mem_nil, or_false] at hk1
  have hfix : key ∉ fixedColumns := by
    simp only [fixedColumns, List.mem_cons, List.mem_singleton, not_or, List.not_mem_nil,
      or_false]
    exact ⟨hk1.1, hk1.2.1, hk1.2.2.1⟩
  obtain ⟨hs1, hs2⟩ := set_eq self guild key (some value)
  rw [if_pos hg] at hs1 hs2
  obtain ⟨hok, hst⟩ := insertOrUpdate_stores self (getGuildID guild) key (some value) hwf
    hfix hk1.2.2.2 hacc
  refine ⟨hs2 hok, ?_⟩
  rw [hs1]
  exact get_of_stored _ guild key (some value) d hst hk

/-- C1 (witness): guild `1`, key `prefix`, value `!` on the freshly started provider. -/
theorem get_after_set_returns_value_witness :
    Reachable started ∧ getGuildID (.id "1") ≠ "global" ∧
    "prefix" ∉ ["guild", "created_at", "updated_at", "__proto__"] ∧
    ("prefix" ∈ started.columns ∨
      ("prefix" ≠ "" ∧ started.knex.legal "prefix" = true ∧
        foldCase "prefix" ∉ started.columns.map foldCase)) ∧
    (set started (.id "1") "prefix" (some "!")).1 = .ok (.str "!") ∧
    get (set started (.id "1") "prefix" (some "!")).2 (.id "1") "prefix" .null
      = .ok (.str "!") :=
  ⟨started_reachable, by decide, by decide, Or.inr ⟨by decide, rfl, by decide⟩,
   get_after_set_returns_value started started_reachable (.id "1") "prefix" "!" .null
     (by decide) (by decide) (Or.inr ⟨by decide, rfl, by decide⟩)⟩

/-- C1 (counterexample): a `set` of null is an unset; the `get` that follows returns
the default `d`, not the null that was written. -/
theorem get_after_set_null_returns_default :
    (set started (.id "1") "prefix" none).1 = .ok .null ∧
    get (set started (.id "1") "prefix" none).2 (.id "1") "prefix" (.str "d") = .ok (.str "d") ∧
    get (set started (.id "1") "prefix" none).2 (.id "1") "prefix" (.str "d") ≠ .ok .null := by
  refine ⟨rfl, rfl, ?_⟩
  decide

/-- C3 (amended): on every state reached after init, for every scope that does not
resolve to `global`, every key other than `guild`, `created_at`, `updated_at` and
`__proto__` that is a column already or that the backend takes as a new column name
(not empty, within the engine's identifier rules, and not equal up to letter case to
an existing column), every value (a text or null) and every default `d`: after `set`,
`remove` returns the value, and the `get` that follows returns `d` (null when `d` is
`undefined`, the parameter's default). -/
theorem remove_after_set_returns_value (self : KnexProvider) (h : Reachable self)
    (guild : Scope) (key : String) (value : Cell) (d : Val)
    (hg : getGuildID guild ≠ "global")
    (hk : key ∉ ["guild", "created_at", "updated_at", "__proto__"])
    (hacc : key ∈ self.columns ∨
      (key ≠ "" ∧ self.knex.legal key = true ∧ foldCase key ∉ self.columns.map foldCase)) :
    (remove (set self guild key value).2 guild key).1 = .ok (cellToVal value) ∧
    get (remove (set self guild key value).2 guild key).2 guild key d
      = .ok (if d = .undefined then .null else d) := by
  have hwf := reachable_wf self h
  have hk1 := hk
  simp only [List.mem_cons, List.mem_singleton, not_or, List.not_mem_nil, or_false] at hk1
  have hfix : key ∉ fixedColumns := by
    simp only [fixedColumns, List.mem_cons, List.mem_singleton, not_or, List.not_mem_nil,
      or_false]
    exact ⟨hk1.1, hk1.2.1, hk1.2.2.1⟩
  obtain ⟨hs1, _⟩ := set_eq self guild key value
  rw [if_pos hg] at hs1
  obtain ⟨_, hst⟩ := insertOrUpdate_stores self (getGuildID guild) key value hwf
    hfix hk1.2.2.2 hacc
  obtain ⟨hwf1, _, hc1, hc2, _, _⟩ := insertOrUpdate_wf self (getGuildID guild) key value hwf
  have hmem : key ∈ (insertOrUpdate self (getGuildID guild) key value).2.columns := by
    by_cases hkc : key ∈ self.columns
    · rw [(hc1 hkc).1]; exact hkc
    · rcases hacc with hh | ⟨hne, hl, hf⟩
      · exact absurd hh hkc
      · rw [(hc2 hkc hne hl hf).1]; simp
  rw [hs1]
  generalize (insertOrUpdate self (getGuildID guild) key value).2 = s1 at hst hwf1 hmem
  have hget : get s1 (.id (getGuildID guild)) key .undefined = .ok (cellToVal value) := by
    rw [get_of_stored s1 (.id (getGuildID guild)) key value .undefined hst hk]
    cases value <;> rfl
  obtain ⟨hok2, hst2⟩ := insertOrUpdate_stores s1 (getGuildID guild) key none hwf1
    hfix hk1.2.2.2 (Or.inl hmem)
  have hrem : remove s1 guild key =
      (.ok (cellToVal value), (insertOrUpdate s1 (getGuildID guild) key none).2) := by
    unfold remove
    simp only [hget, if_pos hg]
    split
    · rename_i e s hh
      rw [hh] at hok2; cases hok2
    · rename_i u s hh
      rw [hh]
  rw [hrem]
  exact ⟨rfl, get_of_stored _ guild key none d hst2 hk⟩

/-- C3 (witness): guild `1`, key `prefix`, value `!`, default `d`. -/
theorem remove_after_set_returns_value_witness :
    Reachable started ∧ getGuildID (.id "1") ≠ "global" ∧
    "prefix" ∉ ["guild", "created_at", "updated_at", "__proto__"] ∧
    ("prefix" ∈ started.columns ∨
      ("prefix" ≠ "" ∧ started.knex.legal "prefix" = true ∧
        foldCase "prefix" ∉ started.columns.map foldCase)) ∧
    (remove (set started (.id "1") "prefix" (some "!")).2 (.id "1") "prefix").1
      = .ok (.str "!") ∧
    get (remove (set started (.id "1") "prefix" (some "!")).2 (.id "1") "prefix").2
      (.id "1") "prefix" (.str "d") = .ok (.str "d") :=
  ⟨started_reachable, by decide, by decide, Or.inr ⟨by decide, rfl, by decide⟩,
   remove_after_set_returns_value started started_reachable (.id "1") "prefix" (some "!")
     (.str "d") (by decide) (by decide) (Or.inr ⟨by decide, rfl, by decide⟩)⟩

/-- C3 (counterexample): the key `created_at` is a metadata column that `formatRow`
strips, so after a successful `set` the `get` inside `remove` reads null; the write of
NULL into that NOT NULL column is then refused, and `remove` rejects instead of
returning the value that was set. -/
theorem remove_metadata_key_loses_value :
    (set started (.id "1") "created_at" (some "2020-01-01 00:00:00")).1
      = .ok (.str "2020-01-01 00:00:00") ∧
    get (set started (.id "1") "created_at" (some "2020-01-01 00:00:00")).2
      (.id "1") "created_at" .undefined = .ok .null ∧
    (remove (set started (.id "1") "created_at" (some "2020-01-01 00:00:00")).2
      (.id "1") "created_at").1 = .error .notNull ∧
    (remove (set started (.id "1") "created_at" (some "2020-01-01 00:00:00")).2
      (.id "1") "created_at").1 ≠ .ok (.str "2020-01-01 00:00:00") := by
  refine ⟨rfl, rfl, rfl, ?_⟩
  decide

/-- C9 (amended): for writes that do not overlap, on every state reached after init
the column cache holds no duplicate; an `insertOrUpdate` (reached through `set` or
`remove`) of a key that is not in the cache and that the backend takes as a new column
name (not empty, within the engine's identifier rules, not equal up to letter case to
an existing column) issues exactly one add-column and appends the key once; one of a
key that is in the cache issues none and leaves the cache as it is; after a write of
such a key, every later write of it, for any tenant and after any further steps,
issues no add-column and leaves the cache unchanged; and the cache only ever grows
at its end and never holds a duplicate. -/
theorem column_creation_idempotent (self : KnexProvider) (h : Reachable self)
    (guild key : String) (value : Cell) :
    self.columns.Nodup ∧
    (key ∉ self.columns → key ≠ "" → self.knex.legal key = true →
      foldCase key ∉ self.columns.map foldCase →
      (insertOrUpdate self guild key value).2.columns = self.columns ++ [key] ∧
      (insertOrUpdate self guild key value).2.knex.alterLog = self.knex.alterLog ++ [key]) ∧
    (key ∈ self.columns →
      (insertOrUpdate self guild key value).2.columns = self.columns ∧
      (insertOrUpdate self guild key value).2.knex.alterLog = self.knex.alterLog) ∧
    ((key ∈ self.columns ∨
        (key ≠ "" ∧ self.knex.legal key = true ∧
          foldCase key ∉ self.columns.map foldCase)) →
      ∀ later, Later (insertOrUpdate self guild key value).2 later →
        ∀ (guild2 : String) (value2 : Cell),
          (insertOrUpdate later guild2 key value2).2.columns = later.columns ∧
          (insertOrUpdate later guild2 key value2).2.knex.alterLog = later.knex.alterLog) ∧
    (∀ later, Later self later → self.columns <+: later.columns ∧ later.columns.Nodup) := by
  have hwf := reachable_wf self h
  have hnodup : ∀ s : KnexProvider, Wf s → s.columns.Nodup := by
    intro s hs
    obtain ⟨t, _, hv, hc⟩ := hs
    rw [hc]; exact hv.1
  obtain ⟨h1, _, h3, h4, _, _⟩ := insertOrUpdate_wf self guild key value hwf
  refine ⟨hnodup self hwf, h4, h3, ?_, ?_⟩
  · intro hacc later hl guild2 value2
    have hmem : key ∈ (insertOrUpdate self guild key value).2.columns := by
      by_cases hk : key ∈ self.columns
      · rw [(h3 hk).1]; exact hk
      · rcases hacc with hh | ⟨hne, hlg, hf⟩
        · exact absurd hh hk
        · rw [(h4 hk hne hlg hf).1]; simp
    obtain ⟨hwl, hpre⟩ := later_columns _ later h1 hl
    exact (insertOrUpdate_wf later guild2 key value2 hwl).2.2.1 (hpre.subset hmem)
  · intro later hl
    obtain ⟨hwl, hpre⟩ := later_columns _ later hwf hl
    exact ⟨hpre, hnodup later hwl⟩

/-- C9 (witness): the key `prefix` written for guild `1` on the freshly started provider. -/
theorem column_creation_idempotent_witness :
    Reachable started ∧
    started.columns.Nodup ∧
    ("prefix" ∉ started.columns → "prefix" ≠ "" → started.knex.legal "prefix" = true →
      foldCase "prefix" ∉ started.columns.map foldCase →
      (insertOrUpdate started "1" "prefix" (some "!")).2.columns
        = started.columns ++ ["prefix"] ∧
      (insertOrUpdate started "1" "prefix" (some "!")).2.knex.alterLog
        = started.knex.alterLog ++ ["prefix"]) ∧
    ("prefix" ∈ started.columns →
      (insertOrUpdate started "1" "prefix" (some "!")).2.columns = started.columns ∧
      (insertOrUpdate started "1" "prefix" (some "!")).2.knex.alterLog
        = started.knex.alterLog) ∧
    (("prefix" ∈ started.columns ∨
        ("prefix" ≠ "" ∧ started.knex.legal "prefix" = true ∧
          foldCase "prefix" ∉ started.columns.map foldCase)) →
      ∀ later, Later (insertOrUpdate started "1" "prefix" (some "!")).2 later →
        ∀ (guild2 : String) (value2 : Cell),
          (insertOrUpdate later guild2 "prefix" value2).2.columns = later.columns ∧
          (insertOrUpdate later guild2 "prefix" value2).2.knex.alterLog
            = later.knex.alterLog) ∧
    (∀ later, Later started later →
      started.columns <+: later.columns ∧ later.columns.Nodup) :=
  ⟨started_reachable,
   column_creation_idempotent started started_reachable "1" "prefix" (some "!")⟩

/-- C9 (counterexample): two keys that are not in the column cache and are not added.
For the empty key no add-column is issued at all and the cache stays as it is. For
`GUILD`, which differs from the column `guild` only in letter case, the add-column is
issued and refused, the cache stays as it is, and the next write issues it again. -/
theorem column_creation_refused_keys :
    "" ∉ started.columns ∧
    (insertOrUpdate started "1" "" (some "v")).1 = .error .invalidKey ∧
    (insertOrUpdate started "1" "" (some "v")).2.columns = started.columns ∧
    (insertOrUpdate started "1" "" (some "v")).2.knex.alterLog = started.knex.alterLog ∧
    "GUILD" ∉ started.columns ∧
    (insertOrUpdate started "1" "GUILD" (some "v")).1 = .error .duplicateColumn ∧
    (insertOrUpdate started "1" "GUILD" (some "v")).2.columns = started.columns ∧
    (insertOrUpdate started "1" "GUILD" (some "v")).2.knex.alterLog = ["GUILD"] ∧
    (insertOrUpdate (insertOrUpdate started "1" "GUILD" (some "v")).2 "2" "GUILD"
      (some "v")).2.knex.alterLog = ["GUILD", "GUILD"] := by
  refine ⟨by decide, rfl, rfl, rfl, by decide, rfl, rfl, rfl, rfl⟩

/-- C2 (evaluation): after `set` on the global scope the table holds the row of the
sentinel `0` with `prefix` set, and the `get` on the global scope that follows throws:
it queries the literal `global`, finds no row and hands `undefined` to `formatRow`. -/
theorem global_get_misses_sentinel_row :
    (set started (.id "global") "prefix" (some "!")).1 = .ok (.str "!") ∧
    (set started (.id "global") "prefix" (some "!")).2.knex.selectAll = .ok
      [[("guild", .str "0"), ("created_at", .str "CURRENT_TIMESTAMP"),
        ("updated_at", .str "CURRENT_TIMESTAMP"), ("prefix", .str "!")]] ∧
    (set started (.id "global") "prefix" (some "!")).2.knex.selectWhere "global" = .ok [] ∧
    get (set started (.id "global") "prefix" (some "!")).2 (.id "global") "prefix" .null
      = .error .typeError :=
  ⟨rfl, rfl, rfl, rfl⟩

/-- C4 (evaluation): a `get` for a tenant without a persisted row throws instead of
returning the default; the table it read is still empty. -/
theorem get_without_row_throws :
    started.knex.selectWhere "1" = .ok [] ∧
    get started (.id "1") "prefix" (.str "d") = .error .typeError ∧
    started.knex.selectAll = .ok [] :=
  ⟨rfl, rfl, rfl⟩

/-- C5 (evaluation): after `clear` of guild `1` the row of guild `2` still answers as
before, but a `get` on the cleared guild throws instead of returning the default. -/
theorem get_after_clear_throws :
    (clear (set (set started (.id "1") "prefix" (some "!")).2 (.id "2") "prefix" (some "?")).2
      (.id "1")).1 = .ok 1 ∧
    get (set (set started (.id "1") "prefix" (some "!")).2 (.id "2") "prefix" (some "?")).2
      (.id "2") "prefix" (.str "d") = .ok (.str "?") ∧
    get (clear (set (set started (.id "1") "prefix" (some "!")).2 (.id "2") "prefix"
      (some "?")).2 (.id "1")).2 (.id "2") "prefix" (.str "d") = .ok (.str "?") ∧
    get (clear (set (set started (.id "1") "prefix" (some "!")).2 (.id "2") "prefix"
      (some "?")).2 (.id "1")).2 (.id "1") "prefix" (.str "d") = .error .typeError :=
  ⟨rfl, rfl, rfl, rfl⟩

/-- C6 (evaluation): after `set` of `prefix` for the loaded guild `g1`, the
`guildCreate` listener leaves the guild object as it was; its `_commandPrefix` is
still null, not `?`, although the awaited `get` would have read `?`. -/
theorem guildCreate_applies_nothing :
    (set started (.id "g1") "prefix" (some "?")).1 = .ok (.str "?") ∧
    get (set started (.id "g1") "prefix" (some "?")).2 (.guild guildG1) "prefix" .null
      = .ok (.str "?") ∧
    (guildCreate (set started (.id "g1") "prefix" (some "?")).2 guildG1).1 = .ok () ∧
    (guildCreate (set started (.id "g1") "prefix" (some "?")).2 guildG1).2.client
      = hostClient ∧
    (cacheGet (guildCreate (set started (.id "g1") "prefix" (some "?")).2 guildG1).2.client.guilds
      (.str "g1")).map Guild._commandPrefix = some .null := by
  refine ⟨rfl, rfl, rfl, ?_, ?_⟩
  · decide
  · decide

/-- C7 (evaluation): `init` applies the row of guild `5`, which the host has not
loaded, to the process-wide defaults: the client's prefix becomes `?` and the command
`ping` is disabled, while without the row the host is left as it was. -/
theorem init_applies_unloaded_guild_globally :
    cacheHas bareClient.guilds (.str "5") = false ∧
    (init dbWithGuild5 bareClient).1 = .ok () ∧
    (init dbWithGuild5 bareClient).2.client._commandPrefix = .str "?" ∧
    (init dbWithGuild5 bareClient).2.client.commands
      = [{ name := "ping", _globalEnabled := false }] ∧
    (init dbWithoutRows bareClient).1 = .ok () ∧
    (init dbWithoutRows bareClient).2.client = bareClient := by
  refine ⟨rfl, rfl, by decide, by decide, rfl, by decide⟩

theorem setupGuildCommand_some (g : Guild) (command : Command) (settings : List (String × Val)) :
    setupGuildCommand (some g) command (.object settings) =
      (some (guildAfter command.name settings g), command) := by
  unfold setupGuildCommand guildAfter
  simp only [Settings.prop]
  split <;> rfl

theorem setupGuildCommand_none (command : Command) (settings : List (String × Val)) :
    setupGuildCommand none command (.object settings) = (none, commandAfter settings command) := by
  unfold setupGuildCommand commandAfter
  simp only [Settings.prop]
  split <;> rfl

theorem commandAfter_name (settings : List (String × Val)) (command : Command) :
    (commandAfter settings command).name = command.name := by
  unfold commandAfter
  split <;> rfl

theorem guildAfter_id (name : String) (settings : List (String × Val)) (g : Guild) :
    (guildAfter name settings g).id = g.id := by
  unfold guildAfter
  split <;> rfl

theorem cacheGet_some (guilds : List Guild) (k : Val) (g : Guild)
    (h : cacheGet guilds k = some g) : g ∈ guilds ∧ k = .str g.id := by
  unfold cacheGet at h
  split at h
  · rename_i id
    have h1 := List.find?_some h
    have h2 := List.mem_of_find?_eq_some h
    simp only [decide_eq_true_eq] at h1
    exact ⟨h2, by rw [h1]⟩
  · cases h

theorem cacheGet_none (guilds : List Guild) (id : String)
    (h : cacheGet guilds (.str id) = none) : ∀ g ∈ guilds, g.id ≠ id := by
  unfold cacheGet at h
  simp only [List.find?_eq_none, decide_eq_true_eq] at h
  exact h

theorem cachePut_eq_map (guilds : List Guild) (g0 g1 : Guild)
    (hids : (guilds.map Guild.id).Nodup) (hmem : g0 ∈ guilds) (hid : g1.id = g0.id) :
    cachePut guilds g1 = guilds.map (fun g => if g.id = g0.id then g1 else g) := by
  induction guilds with
  | nil => rfl
  | cons g rest ih =>
    simp only [List.map_cons, List.nodup_cons, List.mem_map, not_exists, not_and] at hids
    by_cases hg : g.id = g0.id
    · have hrest : ∀ x ∈ rest, x.id ≠ g0.id := fun x hx hx2 => hids.1 x hx (hx2.trans hg.symm)
      have : rest.map (fun g => if g.id = g0.id then g1 else g) = rest := by
        conv => rhs; rw [← List.map_id rest]
        apply List.map_congr_left
        intro x hx
        simp [hrest x hx]
      simp only [cachePut, hid, hg, if_true, List.map_cons, this]
    · have hne : g0 ≠ g := fun h => hg (h ▸ rfl)
      have hmem1 : g0 ∈ rest := by
        rcases List.mem_cons.mp hmem with h | h
        · exact absurd h hne
        · exact h
      simp only [cachePut, hid, hg, if_false, List.map_cons]
      rw [ih hids.2 hmem1]

theorem lookup_cons_ne {β : Type} (k k1 : Val) (v : β) (rest : List (Val × β)) (h : k ≠ k1) :
    List.lookup k ((k1, v) :: rest) = List.lookup k rest := by
  have : (k == k1) = false := by simpa using h
  simp [List.lookup, this]

theorem lookup_cons_eq {β : Type} (k : Val) (v : β) (rest : List (Val × β)) :
    List.lookup k ((k, v) :: rest) = some v := by
  simp [List.lookup]

theorem lookup_val_none {β : Type} (k : Val) (entries : List (Val × β))
    (h : k ∉ entries.map Prod.fst) : List.lookup k entries = none := by
  induction entries with
  | nil => rfl
  | cons e rest ih =>
    obtain ⟨k1, v⟩ := e
    simp only [List.map_cons, List.mem_cons, not_or] at h
    rw [lookup_cons_ne k k1 v rest h.1]
    exact ih h.2

/-- The loop of the `commandRegister` listener, entry by entry: a guild of the cache
is changed by the entry filed under its id, the command by the entry filed under
`global`, and nothing else is touched. -/
theorem commandRegisterLoop_eq (entries : JsMap (List (String × Val))) :
    ∀ (guilds : List Guild) (command : Command),
      (entries.map Prod.fst).Nodup →
      (guilds.map Guild.id).Nodup →
      (∀ g ∈ guilds, g.id ≠ "global") →
      commandRegisterLoop entries guilds command =
        (guilds.map (fun g =>
          match List.lookup (Val.str g.id) entries with
          | some settings => guildAfter command.name settings g
          | none => g),
         match List.lookup (Val.str "global") entries with
         | some settings => commandAfter settings command
         | none => command) := by
  induction entries with
  | nil =>
    intro guilds command _ _ _
    simp [commandRegisterLoop, List.lookup]
  | cons e rest ih =>
    intro guilds command hkeys hids hglobal
    obtain ⟨k, settings⟩ := e
    simp only [List.map_cons, List.nodup_cons] at hkeys
    obtain ⟨hk, hrest⟩ := hkeys
    have hnoglobal : cacheGet guilds (.str "global") = none := by
      unfold cacheGet
      simp only [List.find?_eq_none, decide_eq_true_eq]
      exact hglobal
    by_cases hkg : k = .str "global"
    · subst hkg
      have hstep : commandRegisterLoop ((Val.str "global", settings) :: rest) guilds command =
          commandRegisterLoop rest guilds (commandAfter settings command) := by
        simp [commandRegisterLoop, hnoglobal, setupGuildCommand_none, cacheStore]
      rw [hstep, ih guilds _ hrest hids hglobal, commandAfter_name, lookup_cons_eq,
        lookup_val_none _ rest hk]
      congr 1
      apply List.map_congr_left
      intro g hg
      have hne : Val.str g.id ≠ Val.str "global" := by
        intro h; exact hglobal g hg (Val.str.inj h)
      rw [lookup_cons_ne _ _ _ _ hne]
    · cases hget : cacheGet guilds k with
      | none =>
        have hstep : commandRegisterLoop ((k, settings) :: rest) guilds command =
            commandRegisterLoop rest guilds command := by
          simp [commandRegisterLoop, hkg, cacheHas, hget]
        rw [hstep, ih guilds command hrest hids hglobal,
          lookup_cons_ne _ _ _ _ (fun h => hkg h.symm)]
        congr 1
        apply List.map_congr_left
        intro g hg
        have hne : Val.str g.id ≠ k := by
          intro h
          subst h
          exact cacheGet_none guilds g.id hget g hg rfl
        rw [lookup_cons_ne _ _ _ _ hne]
      | some g0 =>
        obtain ⟨hmem, hk0⟩ := cacheGet_some guilds k g0 hget
        subst hk0
        have hstep : commandRegisterLoop ((Val.str g0.id, settings) :: rest) guilds command =
            commandRegisterLoop rest
              (cachePut guilds (guildAfter command.name settings g0)) command := by
          simp [commandRegisterLoop, cacheHas, hget, setupGuildCommand_some, cacheStore]
        rw [hstep, cachePut_eq_map guilds g0 _ hids hmem (guildAfter_id _ _ _)]
        have hids1 : ((guilds.map (fun g =>
            if g.id = g0.id then guildAfter command.name settings g0 else g)).map
              Guild.id).Nodup := by
          rw [List.map_map]
          have : (Guild.id ∘ fun g =>
              if g.id = g0.id then guildAfter command.name settings g0 else g) = Guild.id := by
            funext g
            simp only [Function.comp]
            split
            · rename_i h; rw [guildAfter_id, h]
            · rfl
          rw [this]; exact hids
        have hglobal1 : ∀ g ∈ guilds.map (fun g =>
            if g.id = g0.id then guildAfter command.name settings g0 else g),
            g.id ≠ "global" := by
          intro g hg
          obtain ⟨x, hx, hxg⟩ := List.mem_map.mp hg
          rw [← hxg]
          split
          · rw [guildAfter_id]; exact hglobal g0 hmem
          · exact hglobal x hx
        rw [ih _ command hrest hids1 hglobal1, List.map_map,
          lookup_cons_ne _ _ _ _ (fun h => hkg h.symm)]
        congr 1
        apply List.map_congr_left
        intro g hg
        simp only [Function.comp]
        by_cases hgid : g.id = g0.id
        · have hgg : g = g0 :=
            List.inj_on_of_nodup_map hids hg hmem hgid
          subst hgg
          simp only [if_true, guildAfter_id, lookup_cons_eq, lookup_val_none _ rest hk]
        · have hne : Val.str g.id ≠ Val.str g0.id := fun h => hgid (Val.str.inj h)
          simp only [hgid, if_false, lookup_cons_ne _ _ _ _ hne]

theorem mapSet_append {β : Type} (m : JsMap β) (k : Val) (v : β)
    (h : k ∉ m.map Prod.fst) : mapSet m k v = m ++ [(k, v)] := by
  induction m with
  | nil => rfl
  | cons e rest ih =>
    obtain ⟨k1, v1⟩ := e
    simp only [List.map_cons, List.mem_cons, not_or] at h
    have hne : ¬ k1 = k := fun h1 => h.1 h1.symm
    simp only [mapSet, hne, if_false, List.cons_append, ih h.2]

theorem allRows_eq (objs : List (List (String × Val))) :
    ∀ acc : JsMap (List (String × Val)),
      (acc.map Prod.fst ++ objs.map scopeOf).Nodup →
      allRows objs acc = .ok (acc ++ objs.map (fun o => (scopeOf o, formatted o))) := by
  induction objs with
  | nil => intro acc _; simp [allRows]
  | cons o rest ih =>
    intro acc h
    have hnot : scopeOf o ∉ acc.map Prod.fst := by
      intro hm
      rw [List.map_cons] at h
      exact (List.nodup_append.mp h).2.2 hm (List.mem_cons_self _ _)
    have hstep : allRows (o :: rest) acc = allRows rest (mapSet acc (scopeOf o) (formatted o)) := rfl
    rw [hstep, mapSet_append acc _ _ hnot, ih]
    · simp
    · simpa using h

theorem lookup_map_keys {α : Type} (l : List α) (f : α → String) (G : String → Val)
    (key : String) (h : key ∈ l.map f) :
    List.lookup key (l.map (fun c => (f c, G (f c)))) = some (G key) := by
  induction l with
  | nil => simp at h
  | cons c rest ih =>
    by_cases hk : key = f c
    · subst hk; simp [List.lookup]
    · have h2 : (key == f c) = false := by simpa using hk
      simp only [List.map_cons, List.mem_cons] at h
      rcases h with h | h
      · exact absurd h hk
      · simp only [List.map_cons, List.lookup, h2]
        exact ih h

theorem lookup_toObject (t : Table) (r : Row) (key : String) (h : key ∈ t.names) :
    List.lookup key (t.toObject r) = some (cellToVal (r.cell key)) :=
  lookup_map_keys t.columns ColumnDef.name (fun c => cellToVal (r.cell c)) key h

theorem scopeOf_toObject (t : Table) (r : Row) (h : "guild" ∈ t.names) :
    scopeOf (t.toObject r) = if r.guild = "0" then Val.str "global" else Val.str r.guild := by
  unfold scopeOf objProp
  rw [lookup_toObject t r "guild" h]
  simp only [Row.cell, if_true, cellToVal]
  by_cases h0 : r.guild = "0"
  · simp [h0]
  · simp [h0]

theorem entries_keys_nodup (t : Table) (hv : t.Valid)
    (hrow : "global" ∉ t.rows.map Row.guild) :
    (t.rows.map (fun r =>
      (if r.guild = "0" then Val.str "global" else Val.str r.guild))).Nodup := by
  have hinj : ∀ x ∈ t.rows.map Row.guild, ∀ y ∈ t.rows.map Row.guild,
      (if x = "0" then Val.str "global" else Val.str x) =
        (if y = "0" then Val.str "global" else Val.str y) → x = y := by
    intro x hx y hy hxy
    by_cases h1 : x = "0" <;> by_cases h2 : y = "0"
    · rw [h1, h2]
    · simp only [h1, h2, if_true, if_false, Val.str.injEq] at hxy
      exact absurd (hxy ▸ hy) hrow
    · simp only [h1, h2, if_true, if_false, Val.str.injEq] at hxy
      exact absurd (hxy ▸ hx) hrow
    · simpa [h1, h2] using hxy
  have := List.Nodup.map_on hinj hv.2.2
  simpa [List.map_map, Function.comp_def] using this

theorem all_eq (self : KnexProvider) (t : Table) (ht : self.knex.table = some t)
    (hv : t.Valid) (hrow : "global" ∉ t.rows.map Row.guild) :
    all self = .ok (t.rows.map (fun r =>
      ((if r.guild = "0" then Val.str "global" else Val.str r.guild),
       formatted (t.toObject r)))) := by
  have hkey : ∀ r : Row, scopeOf (t.toObject r) =
      if r.guild = "0" then Val.str "global" else Val.str r.guild :=
    fun r => scopeOf_toObject t r hv.2.1
  unfold all
  simp only [Knex.selectAll, ht]
  rw [allRows_eq]
  · simp only [List.nil_append, List.map_map, Function.comp_def, hkey]
  · simp only [List.map_nil, List.nil_append, List.map_map, Function.comp_def, hkey]
    exact entries_keys_nodup t hv hrow

theorem lookup_entries {β : Type} (rows : List Row) (F : Row → β) (id : String)
    (h0 : id ≠ "0") (hg : id ≠ "global") :
    List.lookup (Val.str id) (rows.map (fun r =>
      ((if r.guild = "0" then Val.str "global" else Val.str r.guild), F r)))
      = (rows.find? (fun r => r.guild = id)).map F := by
  induction rows with
  | nil => rfl
  | cons r rest ih =>
    simp only [List.map_cons, List.find?_cons]
    by_cases hr : r.guild = id
    · have hr0 : ¬ r.guild = "0" := fun h => h0 (hr ▸ h)
      simp only [hr0, if_false, hr, lookup_cons_eq, decide_True, Option.map_some']
      simp only [h0, if_false, lookup_cons_eq]
    · have hne : Val.str id ≠ (if r.guild = "0" then Val.str "global" else Val.str r.guild) := by
        split
        · intro h; exact hg (Val.str.inj h)
        · intro h; exact hr (Val.str.inj h).symm
      rw [lookup_cons_ne _ _ _ _ hne, ih]
      simp [hr]

theorem lookup_entries_global {β : Type} (rows : List Row) (F : Row → β)
    (hrow : ∀ r ∈ rows, r.guild ≠ "global") :
    List.lookup (Val.str "global") (rows.map (fun r =>
      ((if r.guild = "0" then Val.str "global" else Val.str r.guild), F r)))
      = (rows.find? (fun r => r.guild = "0")).map F := by
  induction rows with
  | nil => rfl
  | cons r rest ih =>
    have ih1 := ih (fun x hx => hrow x (List.mem_cons_of_mem _ hx))
    simp only [List.map_cons, List.find?_cons]
    by_cases hr : r.guild = "0"
    · simp only [hr, if_true, lookup_cons_eq, decide_True, Option.map_some']
    · have hne : Val.str "global" ≠
          (if r.guild = "0" then Val.str "global" else Val.str r.guild) := by
        simp only [hr, if_false]
        intro h
        exact hrow r (List.mem_cons_self _ _) (Val.str.inj h).symm
      rw [lookup_cons_ne _ _ _ _ hne, ih1]
      simp [hr]

theorem cmd_key_char (name : String) : ("cmd-" ++ name).data.get? 3 = some '-' := by
  simp [String.data_append]

theorem cmd_key_not_mem (name : String) (l : List String)
    (h : ∀ s ∈ l, s.data.get? 3 ≠ some '-') : "cmd-" ++ name ∉ l := by
  intro hm
  exact h _ hm (cmd_key_char name)

theorem objProp_formatted (t : Table) (r : Row) (name : String) :
    objProp (formatted (t.toObject r)) ("cmd-" ++ name) =
      match (if "cmd-" ++ name ∈ t.names then r.cell ("cmd-" ++ name) else none) with
      | some s => .str s
      | none => .undefined := by
  have hmeta : "cmd-" ++ name ∉ ["guild", "created_at", "updated_at", "__proto__"] :=
    cmd_key_not_mem name _ (by decide)
  have hproto : "cmd-" ++ name ∉ objectPrototype :=
    cmd_key_not_mem name _ (by decide)
  by_cases hk : "cmd-" ++ name ∈ t.names
  · obtain ⟨settings, hfmt, hlook⟩ := formatRow_lookup (t.toObject r) ("cmd-" ++ name)
      (if looseEqNull (cellToVal (r.cell ("cmd-" ++ name))) then Val.undefined
        else cellToVal (r.cell ("cmd-" ++ name))) hmeta
      (by rw [keys_toObject]; exact hk)
      (by intro v hv; rw [mem_toObject t r _ v hv])
    have hs : settings = formatted (t.toObject r) := by
      have := formatRow_some (t.toObject r)
      rw [hfmt] at this
      exact Except.ok.inj this
    rw [← hs]
    simp only [objProp, hlook, hk, if_true]
    cases r.cell ("cmd-" ++ name) <;> simp [cellToVal, looseEqNull]
  · have hl : List.lookup ("cmd-" ++ name) (formatted (t.toObject r)) = none := by
      unfold formatted
      rw [assignAll_lookup_absent]
      · rfl
      · simp only [keys_objDelete, keys_toObject]
        tauto
    simp only [objProp, hl, hproto, hk, if_false]

theorem guildAfter_formatted (t : Table) (r : Row) (name : String) (g : Guild) :
    guildAfter name (formatted (t.toObject r)) g =
      flaggedGuild name g
        (if "cmd-" ++ name ∈ t.names then r.cell ("cmd-" ++ name) else none) := by
  unfold guildAfter
  rw [objProp_formatted]
  cases (if "cmd-" ++ name ∈ t.names then r.cell ("cmd-" ++ name) else none) with
  | none => simp [flaggedGuild]
  | some s => simp [flaggedGuild, looseEqOne]

theorem commandAfter_formatted (t : Table) (r : Row) (command : Command) :
    commandAfter (formatted (t.toObject r)) command =
      flaggedCommand command
        (if "cmd-" ++ command.name ∈ t.names then r.cell ("cmd-" ++ command.name) else none) := by
  unfold commandAfter
  rw [objProp_formatted]
  cases (if "cmd-" ++ command.name ∈ t.names then r.cell ("cmd-" ++ command.name)
      else none) with
  | none => simp [flaggedCommand]
  | some s => simp [flaggedCommand, looseEqOne]

theorem persisted_eq (k : Knex) (t : Table) (ht : k.table = some t) (guild key : String) :
    k.persisted guild key =
      match t.rows.find? (fun r => r.guild = guild) with
      | some r => if key ∈ t.names then r.cell key else none
      | none => none := by
  unfold Knex.persisted
  rw [ht]
  simp only
  by_cases hk : key ∈ t.names
  · simp only [hk, if_true]
  · simp only [hk, if_false]
    split <;> rfl

theorem sampleRun_reachable : Reachable sampleRun :=
  Reachable.step _ _
    (Reachable.step _ _
      (Reachable.step _ _ started_reachable
        (Step.set started (.id "g1") "cmd-ping" (some "1")))
      (Step.set _ (.id "global") "cmd-ping" (some "0")))
    (Step.set _ (.id "7") "cmd-ping" (some "0"))

/-- C8: on every state reached after init in which the guild cache holds each id once
and none of the reserved ids `global` and `0`, and no persisted row uses the literal id
`global`, the `commandRegister` listener for a command succeeds and leaves exactly
this: the command's `_globalEnabled` is true iff the global row's `cmd-<name>` value
is the text `1` and false for any other value, and is untouched when the global row
has no such value; every guild of the cache whose persisted row has a `cmd-<name>`
value gets `_commandsEnabled[name]` set to true iff that value is `1`, and is
untouched when it has none; rows of guilds that are not in the cache change
nothing; the store and the rest of the host are as before. Reading the flag back
gives that boolean (for every name but `__proto__`). -/
theorem commandRegister_applies_persisted_flags (self : KnexProvider) (command : Command)
    (h : Reachable self)
    (hids : (self.client.guilds.map Guild.id).Nodup)
    (hres : ∀ g ∈ self.client.guilds, g.id ≠ "global" ∧ g.id ≠ "0")
    (hrow : "global" ∉ self.knex.guildIds) :
    commandRegister self command =
      (.ok (flaggedCommand command (self.knex.persisted "0" ("cmd-" ++ command.name))),
       withGuilds self (self.client.guilds.map (fun g =>
         flaggedGuild command.name g (self.knex.persisted g.id ("cmd-" ++ command.name))))) ∧
    (command.name ≠ "__proto__" → ∀ (g : Guild) (s : String),
      (flaggedGuild command.name g (some s))._commandsEnabled.bind (List.lookup command.name)
        = some (decide (s = "1"))) := by
  obtain ⟨t, ht, hv, _⟩ := reachable_wf self h
  have hrow1 : "global" ∉ t.rows.map Row.guild := by
    unfold Knex.guildIds at hrow
    rw [ht] at hrow
    exact hrow
  have hkeys : ((t.rows.map (fun r =>
      ((if r.guild = "0" then Val.str "global" else Val.str r.guild),
       formatted (t.toObject r)))).map Prod.fst).Nodup := by
    rw [List.map_map]
    exact entries_keys_nodup t hv hrow1
  constructor
  · unfold commandRegister
    rw [all_eq self t ht hv hrow1]
    simp only
    rw [commandRegisterLoop_eq _ _ _ hkeys hids (fun g hg => (hres g hg).1)]
    simp only [withGuilds]
    congr 1
    · congr 1
      rw [lookup_entries_global t.rows _ (fun r hr hg => hrow1 (hg ▸ List.mem_map_of_mem _ hr)),
        persisted_eq self.knex t ht]
      cases t.rows.find? (fun r => r.guild = "0") with
      | none => rfl
      | some r => exact commandAfter_formatted t r command
    · congr 2
      apply List.map_congr_left
      intro g hg
      rw [lookup_entries t.rows _ g.id (hres g hg).2 (hres g hg).1,
        persisted_eq self.knex t ht]
      cases t.rows.find? (fun r => r.guild = g.id) with
      | none => rfl
      | some r => exact guildAfter_formatted t r command.name g
  · intro hname g s
    simp [flaggedGuild, Guild.withCommand, lookup_objAssign_same _ _ _ hname]

/-- C8 (witness): the command `ping` registered on the sample run, where guild `g1`
(loaded) stores `1`, the global scope stores `0` and guild `7` (not loaded) stores `0`. -/
theorem commandRegister_applies_persisted_flags_witness :
    Reachable sampleRun ∧
    (sampleRun.client.guilds.map Guild.id).Nodup ∧
    (∀ g ∈ sampleRun.client.guilds, g.id ≠ "global" ∧ g.id ≠ "0") ∧
    "global" ∉ sampleRun.knex.guildIds ∧
    (commandRegister sampleRun pingCommand =
      (.ok (flaggedCommand pingCommand
        (sampleRun.knex.persisted "0" ("cmd-" ++ pingCommand.name))),
       withGuilds sampleRun (sampleRun.client.guilds.map (fun g =>
         flaggedGuild pingCommand.name g
           (sampleRun.knex.persisted g.id ("cmd-" ++ pingCommand.name))))) ∧
     (pingCommand.name ≠ "__proto__" → ∀ (g : Guild) (s : String),
       (flaggedGuild pingCommand.name g (some s))._commandsEnabled.bind
         (List.lookup pingCommand.name) = some (decide (s = "1")))) :=
  ⟨sampleRun_reachable, by decide, by decide, by decide,
   commandRegister_applies_persisted_flags sampleRun pingCommand sampleRun_reachable
     (by decide) (by decide) (by decide)⟩

end KnexProvider
